import Mathlib

/-!
Verification of the cc-score scoring core (src/cli.mjs).

The embedding models the scoring/aggregation functions of the CLI: calendar
date arithmetic (`addDays`), the 30-day window walk, the five component
scorers, the streak detector and the grade lookup.  JavaScript numbers are
modelled as exact rationals (`ℚ`); the float rounding error of the source
never crosses a `Math.round` boundary on the values the claims speak about,
and the spec itself states all formulas in exact arithmetic.  JavaScript
values stored in the `byDate` log are modelled by the inductive `JVal`,
which keeps enough of the dynamic semantics (truthiness, `typeof`,
string concatenation on `+`, `ToNumber` coercion with `NaN`) to settle the
malformed-record claims honestly.  Dates appear in the source as
`YYYY-MM-DD` strings; the padded format is a bijection between valid
strings and (year, month, day) triples, so the log is keyed here by the
triple `YMD` directly and `addDays` acts on triples, exactly as the spec
describes the calendar model (a pure y/m/d triple with day decrement).
-/

namespace CCScore

/-- Calendar date: the (year, month, day) triple behind a `YYYY-MM-DD` key. -/
structure YMD where
  y : ℤ
  m : ℕ
  d : ℕ
deriving DecidableEq

/-- Proleptic Gregorian leap-year rule, as implemented by the JS `Date`. -/
def isLeap (y : ℤ) : Bool := (y % 4 == 0 && y % 100 != 0) || y % 400 == 0

/-- Days in a month of a given year.  Months outside 1..12 never arise from a
valid date; the catch-all 31 keeps the function total. -/
def daysInMonth (y : ℤ) (m : ℕ) : ℕ :=
  if m = 2 then (if isLeap y then 29 else 28)
  else if m = 4 ∨ m = 6 ∨ m = 9 ∨ m = 11 then 30
  else 31

/-- Day of a valid date lies in 1..daysInMonth, month in 1..12. -/
def ValidYMD (t : YMD) : Prop :=
  1 ≤ t.m ∧ t.m ≤ 12 ∧ 1 ≤ t.d ∧ t.d ≤ daysInMonth t.y t.m

/-- Calendar successor: models `dt.setDate(dt.getDate() + 1)`. -/
def nextDay (t : YMD) : YMD :=
  if t.d < daysInMonth t.y t.m then ⟨t.y, t.m, t.d + 1⟩
  else if t.m < 12 then ⟨t.y, t.m + 1, 1⟩
  else ⟨t.y + 1, 1, 1⟩

/-- Calendar predecessor: models `dt.setDate(dt.getDate() - 1)`, rolling over
month and year boundaries on pure y/m/d components. -/
def prevDay (t : YMD) : YMD :=
  if 1 < t.d then ⟨t.y, t.m, t.d - 1⟩
  else if 1 < t.m then ⟨t.y, t.m - 1, daysInMonth t.y (t.m - 1)⟩
  else ⟨t.y - 1, 12, 31⟩

/-- Source `addDays(dateStr, n)`: parse, shift by `n` calendar days, reformat.
The JS `Date` normalisation of `setDate(getDate() + n)` is exactly an
`n`-fold day increment (or decrement for negative `n`) on the y/m/d triple. -/
def addDays (t : YMD) (n : ℤ) : YMD :=
  if 0 ≤ n then nextDay^[n.toNat] t else prevDay^[(-n).toNat] t

/-- Numeric key `y * 10000 + m * 100 + d`, the value of the date string read as
a decimal number.  On valid dates it orders exactly like the calendar. -/
def keyZ (t : YMD) : ℤ := t.y * 10000 + (t.m : ℤ) * 100 + (t.d : ℤ)

/-- JavaScript runtime values that can reach the scoring core through the
parsed JSON log: numbers (exact rationals plus `NaN`), strings, booleans,
`null`, `undefined` (the result of a missing key lookup) and objects, of
which only the two fields `main` and `sub` are ever read. -/
inductive JVal where
  | num (q : ℚ)
  | nan
  | str (s : String)
  | bool (b : Bool)
  | null
  | undefined
  | obj (main sub : JVal)
deriving DecidableEq

/-- JS truthiness: `0`, `NaN`, the empty string, `false`, `null` and
`undefined` are falsy; every object is truthy. -/
def truthy : JVal → Bool
  | .num q => q != 0
  | .nan => false
  | .str s => s != ""
  | .bool b => b
  | .null => false
  | .undefined => false
  | .obj _ _ => true

/-- Test `typeof v === 'object'`; `typeof null` is `'object'` in JS. -/
def typeofIsObject : JVal → Bool
  | .obj _ _ => true
  | .null => true
  | _ => false

/-- Property read `v.main`.  A missing field is `undefined`.  Reading a field
of `null` throws in JS; in the source every such read sits behind a
truthiness guard that filters `null` out, so the `undefined` returned here for
non-objects is never observed. -/
def getMain : JVal → JVal
  | .obj a _ => a
  | _ => .undefined

/-- Property read `v.sub`; see `getMain`. -/
def getSub : JVal → JVal
  | .obj _ b => b
  | _ => .undefined

/-- Rendering of a number for string concatenation.  JS prints non-integral
numbers in decimal notation; the fraction form used here differs only in the
characters produced for non-integers, which no claim observes (concatenation
results are only ever tested for truthiness and `ToNumber`, and every number
that reaches a concatenation in a claim below is an integer). -/
def ratToStr (q : ℚ) : String :=
  if q.den = 1 then toString q.num else toString q.num ++ "/" ++ toString q.den

/-- ECMAScript `ToString` on the values of `JVal`. -/
def toStrJS : JVal → String
  | .num q => ratToStr q
  | .nan => "NaN"
  | .str s => s
  | .bool b => if b then "true" else "false"
  | .null => "null"
  | .undefined => "undefined"
  | .obj _ _ => "[object Object]"

/-- ECMAScript `ToNumber` on a string: the empty string is `0`, an optionally
signed run of decimal digits is that integer, anything else of the shapes
arising here (non-numeric garbage such as `"a"`, `"0a5"`, `"[object Object]"`)
is `NaN`, encoded as `none`. -/
def strToNumber (s : String) : Option ℚ :=
  if s = "" then some 0
  else
    match s.toList with
    | '-' :: rest =>
        if rest ≠ [] ∧ rest.all Char.isDigit
        then some (-((rest.foldl (fun n c => n * 10 + (c.toNat - 48)) 0 : ℕ) : ℚ))
        else none
    | cs =>
        if cs.all Char.isDigit
        then some ((cs.foldl (fun n c => n * 10 + (c.toNat - 48)) 0 : ℕ) : ℚ)
        else none

/-- ECMAScript `ToNumber`; `none` encodes `NaN`.  An object converts through
`ToPrimitive`, giving the string `"[object Object]"` and hence `NaN`. -/
def toNumber : JVal → Option ℚ
  | .num q => some q
  | .nan => none
  | .str s => strToNumber s
  | .bool b => some (if b then 1 else 0)
  | .null => some 0
  | .undefined => none
  | .obj _ _ => none

/-- ECMAScript `ToPrimitive` as it acts on these values: objects print as
`"[object Object]"`, primitives are unchanged. -/
def toPrim : JVal → JVal
  | .obj _ _ => .str "[object Object]"
  | v => v

/-- JS `||`: the left operand if truthy, otherwise the right. -/
def jsOr (a b : JVal) : JVal := if truthy a then a else b

/-- JS `+`: after `ToPrimitive`, string concatenation if either side is a
string, numeric addition otherwise, with `NaN` absorbing. -/
def jsAdd (a b : JVal) : JVal :=
  match toPrim a, toPrim b with
  | .str s, w => .str (s ++ toStrJS w)
  | w, .str s => .str (toStrJS w ++ s)
  | x, y =>
      match toNumber x, toNumber y with
      | some p, some q => .num (p + q)
      | _, _ => .nan

/-- JS `*`: always numeric, `NaN` absorbing. -/
def jsMul (a b : JVal) : JVal :=
  match toNumber a, toNumber b with
  | some p, some q => .num (p * q)
  | _, _ => .nan

/-- JS `/`.  A zero denominator gives `Infinity` or `NaN` in JS; both are
conflated into `nan` here, which is sound because every division in the
source sits behind a strictly-positive-denominator guard. -/
def jsDiv (a b : JVal) : JVal :=
  match toNumber a, toNumber b with
  | some p, some q => if q = 0 then .nan else .num (p / q)
  | _, _ => .nan

/-- JS `Math.round`: coerces via `ToNumber`, then rounds half toward
positive infinity, which is Mathlib `round`. -/
def jsRound (v : JVal) : JVal :=
  match toNumber v with
  | some q => .num ((round q : ℤ) : ℚ)
  | none => .nan

/-- JS `Math.min` on two arguments: `NaN` if either is `NaN`. -/
def jsMin (a b : JVal) : JVal :=
  match toNumber a, toNumber b with
  | some p, some q => .num (min p q)
  | _, _ => .nan

/-- JS `v > 0`: numeric comparison, false on `NaN`. -/
def jsGtZero (v : JVal) : Bool :=
  match toNumber v with
  | some q => decide (0 < q)
  | none => false

/-- JS `v === 0`: strict equality with the number zero. -/
def jsStrictEq0 (v : JVal) : Bool :=
  match v with
  | .num q => q == 0
  | _ => false

/-- JS `v >= t` for a numeric literal `t`: false on `NaN`. -/
def jsGeNum (v : JVal) (t : ℚ) : Bool :=
  match toNumber v with
  | some q => decide (t ≤ q)
  | none => false

/-- The `byDate` log: a finite mapping from date to value, as an association
list.  A JSON object cannot repeat a key, so lists with duplicate keys are
degenerate; lookup takes the first match. -/
abbrev Log : Type := List (YMD × JVal)

/-- Property lookup `byDate[d]`: `undefined` when the key is absent. -/
def lookupJS : Log → YMD → JVal
  | [], _ => .undefined
  | (k, v) :: rest, d => if k = d then v else lookupJS rest d

/-- The dates visited by each window loop `for (let i = 0; i < window; i++)
{ const d = addDays(today, -i); ... }`, in visiting order. -/
def windowDates (today : YMD) (window : ℕ) : List YMD :=
  (List.range window).map (fun (i : ℕ) => addDays today (-(i : ℤ)))

/-- Day hours `typeof v === 'object' ? (v.main || 0) + (v.sub || 0) : (v || 0)`,
the expression shared by `scoreConsistency`, `scoreVolume` and
`computeStreak`. -/
def hoursOf (v : JVal) : JVal :=
  if typeofIsObject v then jsAdd (jsOr (getMain v) (.num 0)) (jsOr (getSub v) (.num 0))
  else jsOr v (.num 0)

/-- Per-day main-hours term `typeof v === 'object' ? (v.main || 0) : 0`. -/
def mainContrib (v : JVal) : JVal :=
  if typeofIsObject v then jsOr (getMain v) (.num 0) else .num 0

/-- Per-day sub-hours term `typeof v === 'object' ? (v.sub || 0) : (v || 0)`:
a legacy scalar record counts entirely as sub hours. -/
def subContrib (v : JVal) : JVal :=
  if typeofIsObject v then jsOr (getSub v) (.num 0) else jsOr v (.num 0)

/-- Window accumulation skeleton shared by the summing loops: per date, look
up the record, `continue` when falsy, otherwise add `f v` to the
accumulator. -/
def sumWith (f : JVal → JVal) (byDate : Log) (today : YMD) (window : ℕ) : JVal :=
  (windowDates today window).foldl
    (fun acc d =>
      let v := lookupJS byDate d
      if truthy v then jsAdd acc (f v) else acc)
    (.num 0)

/-- Window counting skeleton shared by the counting loops: per date, look up
the record, `continue` when falsy, otherwise count the dates where `p v`. -/
def countWith (p : JVal → Bool) (byDate : Log) (today : YMD) (window : ℕ) : ℕ :=
  (windowDates today window).countP
    (fun d =>
      let v := lookupJS byDate d
      truthy v && p v)

/-- Result of `scoreConsistency`, fields as in the source object literal.
The counters and the division by the window size are genuine numbers in
every run (the counter only ever receives `++`), so they are typed `ℕ`, `ℚ`
and `ℤ` directly; a zero window would be a NaN in JS, but the source always
passes the default 30 and so do all claims. -/
structure ConsistencyScore where
  raw : ℚ
  points : ℤ
  activeDays : ℕ
  window : ℕ
deriving DecidableEq

/-- Source `scoreConsistency`: percentage of the last `window` days with
positive activity, scaled to 30 points.  Note there is no explicit cap. -/
def scoreConsistency (byDate : Log) (today : YMD) (window : ℕ) : ConsistencyScore :=
  let active := countWith (fun v => jsGtZero (hoursOf v)) byDate today window
  let pct : ℚ := (active : ℚ) / (window : ℚ)
  ⟨pct, round (pct * 30), active, window⟩

/-- Result of `scoreAutonomy`.  The hour sums flow through JS `+` on raw
record fields and can be contaminated by non-numeric records, so all fields
keep the dynamic type `JVal`. -/
structure AutonomyScore where
  ratio : JVal
  points : JVal
  mainHours : JVal
  subHours : JVal
deriving DecidableEq

/-- Source `scoreAutonomy`: ratio of sub (AI) to main (human) hours over the
window, `2` when only sub hours exist, `0` when neither; points are
`min(25, round(ratio * 12.5))`.  The single source loop updates the two
independent accumulators `main` and `sub`; it is modelled as two runs of the
shared loop skeleton, one per accumulator. -/
def scoreAutonomy (byDate : Log) (today : YMD) (window : ℕ) : AutonomyScore :=
  let main := sumWith mainContrib byDate today window
  let sub := sumWith subContrib byDate today window
  let ratio := if jsGtZero main then jsDiv sub main
               else if jsGtZero sub then .num 2 else .num 0
  let points := jsMin (.num 25) (jsRound (jsMul ratio (.num 12.5)))
  ⟨ratio, points, main, sub⟩

/-- Result of `scoreGhostDays`; counters and the guarded division are genuine
numbers in every run, as in `ConsistencyScore`. -/
structure GhostScore where
  ghostDays : ℕ
  activeDays : ℕ
  pct : ℚ
  points : ℤ
deriving DecidableEq

/-- Source `scoreGhostDays`: among window days, count the active ones
(`m > 0 || s > 0`) and, nested under that test, the ghost ones
(`m === 0 && s > 0`); points are `min(20, round(pct * 25))` where `pct` is
the guarded ratio of the two counters.  The single source loop updates the
two independent counters; it is modelled as two runs of the shared counting
skeleton, the ghost test conjoined with the active test it is nested in. -/
def scoreGhostDays (byDate : Log) (today : YMD) (window : ℕ) : GhostScore :=
  let active := countWith
    (fun v => jsGtZero (mainContrib v) || jsGtZero (subContrib v)) byDate today window
  let ghost := countWith
    (fun v => (jsGtZero (mainContrib v) || jsGtZero (subContrib v))
      && (jsStrictEq0 (mainContrib v) && jsGtZero (subContrib v))) byDate today window
  let pct : ℚ := if 0 < active then (ghost : ℚ) / (active : ℚ) else 0
  ⟨ghost, active, pct, min 20 (round (pct * 25))⟩

/-- Result of `scoreVolume`; the hour sum is a raw JS `+` fold, kept `JVal`. -/
structure VolumeScore where
  totalHours : JVal
  points : JVal
deriving DecidableEq

/-- Source `scoreVolume`: total hours over the window, points
`min(15, round(total / 100 * 15))`. -/
def scoreVolume (byDate : Log) (today : YMD) (window : ℕ) : VolumeScore :=
  let total := sumWith hoursOf byDate today window
  ⟨total, jsMin (.num 15) (jsRound (jsMul (jsDiv total (.num 100)) (.num 15)))⟩

/-- One step of the `while (byDate[d])` walk of `computeStreak`, with explicit
fuel: stop on a falsy lookup, stop on a record whose hour sum is strictly
equal to `0`, otherwise count the day and move to the previous date.  The
JS loop is unbounded; `streakGo_stable` below proves the value is the same
for every fuel of at least the number of log entries, so `computeStreak`
runs it with that fuel and computes exactly the limit of the loop. -/
def streakGo (byDate : Log) : YMD → ℕ → ℕ
  | _, 0 => 0
  | d, fuel + 1 =>
    let v := lookupJS byDate d
    if truthy v then
      (if jsStrictEq0 (hoursOf v) then 0 else streakGo byDate (addDays d (-1)) fuel + 1)
    else 0

/-- Source `computeStreak`: when the anchor record is falsy (`!byDate[d]`),
start from the previous calendar day, then walk backward while active. -/
def computeStreak (byDate : Log) (today : YMD) : ℕ :=
  let d := if truthy (lookupJS byDate today) then today else addDays today (-1)
  streakGo byDate d byDate.length

/-- Result of `scoreStreak`; the streak count is a genuine number. -/
structure StreakScore where
  streak : ℕ
  points : ℤ
deriving DecidableEq

/-- Source `scoreStreak`: `min(10, round(streak / 30 * 10))`. -/
def scoreStreak (streak : ℕ) : StreakScore :=
  ⟨streak, min 10 (round ((streak : ℚ) / 30 * 10))⟩

/-- Source line 229: the total is the plain JS sum of the five component
point values, in source order. -/
def total (byDate : Log) (today : YMD) : JVal :=
  jsAdd
    (jsAdd
      (jsAdd
        (jsAdd (.num ((scoreConsistency byDate today 30).points : ℚ))
          (scoreAutonomy byDate today 30).points)
        (.num ((scoreGhostDays byDate today 30).points : ℚ)))
      (scoreVolume byDate today 30).points)
    (.num ((scoreStreak (computeStreak byDate today)).points : ℚ))

/-- Grade tier as returned by the source `grade` function. -/
structure GradeInfo where
  grade : String
  label : String
  desc : String
deriving DecidableEq

/-- Source `grade`: first matching `score >= bound` of 90, 75, 60, 45, 30,
else the F tier. -/
def grade (score : JVal) : GradeInfo :=
  if jsGeNum score 90 then ⟨"S", "Cyborg", "You and AI are seamlessly fused."⟩
  else if jsGeNum score 75 then ⟨"A", "Power User", "Serious AI collaboration."⟩
  else if jsGeNum score 60 then ⟨"B", "Growing", "Your AI habits are taking shape."⟩
  else if jsGeNum score 45 then ⟨"C", "Early Stage", "Room to develop the relationship."⟩
  else if jsGeNum score 30 then ⟨"D", "Getting Started", "Keep going."⟩
  else ⟨"F", "Dormant", "Wake up your AI."⟩

/-! ## Well-formed logs and the rational-valued reading of a record

The spec data model: a record is a non-negative number (legacy scalar,
all sub hours) or an object whose `main` and `sub` fields are non-negative
numbers or missing. -/

/-- Field of a structured record: missing (`undefined`) or a non-negative
number. -/
def fieldOk : JVal → Bool
  | .undefined => true
  | .num q => decide (0 ≤ q)
  | _ => false

/-- Record of the spec data model: non-negative legacy scalar or object of
two ok fields. -/
def recordOk : JVal → Bool
  | .num q => decide (0 ≤ q)
  | .obj a b => fieldOk a && fieldOk b
  | _ => false

/-- Log whose every stored value is a record of the spec data model. -/
def WF (log : Log) : Prop := ∀ e ∈ log, recordOk e.2 = true

instance decWF (log : Log) : Decidable (WF log) :=
  inferInstanceAs (Decidable (∀ e ∈ log, recordOk e.2 = true))

/-- Ok value: a well-formed record or the `undefined` of a missed lookup. -/
def OkV (v : JVal) : Prop := recordOk v = true ∨ v = .undefined

/-- Main (human) hours a record contributes, as a rational. -/
def mainQ : JVal → ℚ
  | .obj (.num q) _ => q
  | _ => 0

/-- Sub (AI) hours a record contributes, as a rational; a legacy scalar is
entirely sub hours. -/
def subQ : JVal → ℚ
  | .num q => q
  | .obj _ (.num q) => q
  | _ => 0

/-- Total hours a record contributes. -/
def hoursQ (v : JVal) : ℚ := mainQ v + subQ v

theorem lookup_ok {log : Log} (h : WF log) (d : YMD) : OkV (lookupJS log d) := by
  induction log with
  | nil => exact Or.inr rfl
  | cons e rest ih =>
    obtain ⟨k, v⟩ := e
    simp only [lookupJS]
    split
    · exact Or.inl (h ⟨k, v⟩ (List.mem_cons_self _ _))
    · exact ih (fun e he => h e (List.mem_cons_of_mem _ he))

@[simp] theorem jsAdd_num_num (p q : ℚ) : jsAdd (.num p) (.num q) = .num (p + q) := rfl

/-- Numeric value of an ok field: the number stored, or `0` when missing. -/
def fieldQ : JVal → ℚ
  | .num q => q
  | _ => 0

theorem okv_obj {a b : JVal} (hv : OkV (.obj a b)) :
    fieldOk a = true ∧ fieldOk b = true := by
  rcases hv with hv | hv
  · simpa [recordOk, Bool.and_eq_true] using hv
  · simp at hv

theorem okv_num {q : ℚ} (hv : OkV (.num q)) : 0 ≤ q := by
  rcases hv with hv | hv
  · simpa [recordOk] using hv
  · simp at hv

theorem fieldQ_nonneg {a : JVal} (ha : fieldOk a = true) : 0 ≤ fieldQ a := by
  cases a <;> simp_all [fieldOk, fieldQ]

theorem jsOr_zero_of_fieldOk {a : JVal} (ha : fieldOk a = true) :
    jsOr a (.num 0) = .num (fieldQ a) := by
  cases a with
  | num qa => rcases eq_or_ne qa 0 with h | h <;> simp [jsOr, truthy, h, fieldQ]
  | undefined => simp [jsOr, truthy, fieldQ]
  | _ => simp_all [fieldOk]

theorem mainQ_obj (a b : JVal) : mainQ (.obj a b) = fieldQ a := by
  cases a <;> simp [mainQ, fieldQ]

theorem subQ_obj (a b : JVal) : subQ (.obj a b) = fieldQ b := by
  cases b <;> simp [subQ, fieldQ]

theorem mainQ_nonneg {v : JVal} (hv : OkV v) : 0 ≤ mainQ v := by
  cases v with
  | obj a b => rw [mainQ_obj]; exact fieldQ_nonneg (okv_obj hv).1
  | _ => simp [mainQ]

theorem subQ_nonneg {v : JVal} (hv : OkV v) : 0 ≤ subQ v := by
  cases v with
  | num q => simpa [subQ] using okv_num hv
  | obj a b => rw [subQ_obj]; exact fieldQ_nonneg (okv_obj hv).2
  | _ => simp [subQ]

theorem hoursQ_nonneg {v : JVal} (hv : OkV v) : 0 ≤ hoursQ v :=
  add_nonneg (mainQ_nonneg hv) (subQ_nonneg hv)

/-- On an ok value, the summing-loop step for main hours adds `mainQ v`. -/
theorem step_main {v : JVal} (hv : OkV v) (p : ℚ) :
    (if truthy v then jsAdd (.num p) (mainContrib v) else .num p) = .num (p + mainQ v) := by
  cases v with
  | num q =>
      rcases eq_or_ne q 0 with h | h <;>
        simp [truthy, h, mainContrib, typeofIsObject, mainQ]
  | undefined => simp [truthy, mainQ]
  | obj a b =>
      obtain ⟨ha, _⟩ := okv_obj hv
      simp [truthy, mainContrib, typeofIsObject, getMain,
        jsOr_zero_of_fieldOk ha, mainQ_obj]
  | _ => exact absurd hv (by simp [OkV, recordOk])

/-- On an ok value, the summing-loop step for sub hours adds `subQ v`. -/
theorem step_sub {v : JVal} (hv : OkV v) (p : ℚ) :
    (if truthy v then jsAdd (.num p) (subContrib v) else .num p) = .num (p + subQ v) := by
  cases v with
  | num q =>
      rcases eq_or_ne q 0 with h | h <;>
        simp [truthy, h, subContrib, typeofIsObject, jsOr, subQ]
  | undefined => simp [truthy, subQ]
  | obj a b =>
      obtain ⟨_, hb⟩ := okv_obj hv
      simp [truthy, subContrib, typeofIsObject, getSub,
        jsOr_zero_of_fieldOk hb, subQ_obj]
  | _ => exact absurd hv (by simp [OkV, recordOk])

/-- On an ok value, the shared hours expression evaluates to `hoursQ v`. -/
theorem hoursOf_ok {v : JVal} (hv : OkV v) : hoursOf v = .num (hoursQ v) := by
  cases v with
  | num q =>
      rcases eq_or_ne q 0 with h | h <;>
        simp [hoursOf, typeofIsObject, jsOr, truthy, h, hoursQ, mainQ, subQ]
  | undefined => simp [hoursOf, typeofIsObject, jsOr, truthy, hoursQ, mainQ, subQ]
  | obj a b =>
      obtain ⟨ha, hb⟩ := okv_obj hv
      simp [hoursOf, typeofIsObject, getMain, getSub,
        jsOr_zero_of_fieldOk ha, jsOr_zero_of_fieldOk hb,
        hoursQ, mainQ_obj, subQ_obj]
  | _ => exact absurd hv (by simp [OkV, recordOk])

/-- On an ok value, the summing-loop step for total hours adds `hoursQ v`. -/
theorem step_hours {v : JVal} (hv : OkV v) (p : ℚ) :
    (if truthy v then jsAdd (.num p) (hoursOf v) else .num p) = .num (p + hoursQ v) := by
  rw [hoursOf_ok hv]
  cases v with
  | num q =>
      rcases eq_or_ne q 0 with h | h <;>
        simp [truthy, h, hoursQ, mainQ, subQ]
  | undefined => simp [truthy, hoursQ, mainQ, subQ]
  | obj a b => simp [truthy]
  | _ => exact absurd hv (by simp [OkV, recordOk])

@[simp] theorem jsMul_num_num (p q : ℚ) : jsMul (.num p) (.num q) = .num (p * q) := rfl

@[simp] theorem jsRound_num (x : ℚ) : jsRound (.num x) = .num ((round x : ℤ) : ℚ) := rfl

@[simp] theorem jsMin_num_num (p q : ℚ) : jsMin (.num p) (.num q) = .num (min p q) := rfl

theorem jsDiv_num_num (p q : ℚ) (hq : q ≠ 0) : jsDiv (.num p) (.num q) = .num (p / q) := by
  simp [jsDiv, toNumber, hq]

theorem jsGtZero_num (q : ℚ) : jsGtZero (.num q) = decide (0 < q) := rfl

/-- On an ok value, the active-day test of `scoreConsistency` holds exactly
when the hours read positive. -/
theorem active_char {v : JVal} (hv : OkV v) :
    (truthy v && jsGtZero (hoursOf v)) = decide (0 < hoursQ v) := by
  rw [hoursOf_ok hv]
  cases v with
  | num q =>
      rcases eq_or_ne q 0 with h | h
      · subst h; simp [truthy, hoursQ, mainQ, subQ, jsGtZero, toNumber]
      · simp [truthy, h, jsGtZero, toNumber]
  | undefined => simp [truthy, jsGtZero, toNumber, hoursQ, mainQ, subQ]
  | obj a b => simp [truthy, jsGtZero, toNumber]
  | _ => exact absurd hv (by simp [OkV, recordOk])

/-- On an ok value, the active-day test of `scoreGhostDays` agrees with the
one of `scoreConsistency`: positive total hours. -/
theorem ghostActive_char {v : JVal} (hv : OkV v) :
    (truthy v && (jsGtZero (mainContrib v) || jsGtZero (subContrib v)))
      = decide (0 < hoursQ v) := by
  cases v with
  | num q =>
      rcases eq_or_ne q 0 with h | h
      · subst h; simp [truthy, hoursQ, mainQ, subQ, mainContrib, subContrib,
          typeofIsObject, jsOr, jsGtZero, toNumber]
      · simp [truthy, h, mainContrib, subContrib, typeofIsObject, jsOr,
          jsGtZero, toNumber, hoursQ, mainQ, subQ]
  | undefined => simp [truthy, hoursQ, mainQ, subQ, jsGtZero, toNumber]
  | obj a b =>
      obtain ⟨ha, hb⟩ := okv_obj hv
      have hfa := fieldQ_nonneg ha
      have hfb := fieldQ_nonneg hb
      simp only [truthy, Bool.true_and, mainContrib, subContrib, typeofIsObject,
        if_pos, getMain, getSub, jsOr_zero_of_fieldOk ha, jsOr_zero_of_fieldOk hb,
        jsGtZero_num, hoursQ, mainQ_obj, subQ_obj]
      by_cases h1 : 0 < fieldQ a <;> by_cases h2 : 0 < fieldQ b
      · simp [h1, h2, add_pos h1 h2]
      · simp [h1, h2, add_pos_of_pos_of_nonneg h1 hfb]
      · simp [h1, h2, add_pos_of_nonneg_of_pos hfa h2]
      · have hs : ¬ (0 < fieldQ a + fieldQ b) := by
          push_neg at h1 h2 ⊢
          exact add_nonpos h1 h2
        simp [h1, h2, hs]
  | _ => exact absurd hv (by simp [OkV, recordOk])

/-- On an ok value, the nested ghost-day test of `scoreGhostDays` holds
exactly when the record has zero main hours and positive sub hours. -/
theorem ghost_char {v : JVal} (hv : OkV v) :
    (truthy v && ((jsGtZero (mainContrib v) || jsGtZero (subContrib v))
        && (jsStrictEq0 (mainContrib v) && jsGtZero (subContrib v))))
      = decide (mainQ v = 0 ∧ 0 < subQ v) := by
  cases v with
  | num q =>
      rcases eq_or_ne q 0 with h | h
      · subst h; simp [truthy, mainQ, subQ]
      · by_cases hq : 0 < q <;>
          simp [truthy, h, hq, mainContrib, subContrib, typeofIsObject, jsOr,
            jsGtZero, toNumber, jsStrictEq0, mainQ, subQ]
  | undefined => simp [truthy, mainQ, subQ]
  | obj a b =>
      obtain ⟨ha, hb⟩ := okv_obj hv
      simp only [truthy, Bool.true_and, mainContrib, subContrib, typeofIsObject,
        if_pos, getMain, getSub, jsOr_zero_of_fieldOk ha, jsOr_zero_of_fieldOk hb,
        jsGtZero_num, jsStrictEq0, mainQ_obj, subQ_obj]
      by_cases hfa : fieldQ a = 0 <;> by_cases hfb : 0 < fieldQ b <;>
        simp [hfa, hfb]
  | _ => exact absurd hv (by simp [OkV, recordOk])

/-- Unrolling of the shared summing loop: starting from `p`, the loop ends at
`p` plus the pointwise rational readings of the records it visits. -/
theorem foldl_sum_eq (byDate : Log) (f : JVal → JVal) (fQ : JVal → ℚ)
    (hstep : ∀ (d : YMD) (p : ℚ),
      (if truthy (lookupJS byDate d) then jsAdd (.num p) (f (lookupJS byDate d)) else .num p)
        = .num (p + fQ (lookupJS byDate d)))
    (dates : List YMD) (p : ℚ) :
    dates.foldl
      (fun acc d =>
        let v := lookupJS byDate d
        if truthy v then jsAdd acc (f v) else acc) (.num p)
      = .num (p + (dates.map (fun d => fQ (lookupJS byDate d))).sum) := by
  induction dates generalizing p with
  | nil => simp
  | cons a l ih =>
      simp only [List.foldl_cons, List.map_cons, List.sum_cons]
      rw [hstep a p, ih, add_assoc]

/-! ## Spec-side window aggregates

The definitions below transcribe the aggregation formulas as the spec states
them (count of active days, hour sums, ratio and percentage formulas); the
bridge lemmas prove the source scorers compute exactly these on well-formed
logs. -/

/-- Spec aggregate: days of the window with positive activity. -/
def activeCount (byDate : Log) (today : YMD) (window : ℕ) : ℕ :=
  (windowDates today window).countP (fun d => decide (0 < hoursQ (lookupJS byDate d)))

/-- Spec aggregate: days of the window with zero main hours and positive sub
hours. -/
def ghostCount (byDate : Log) (today : YMD) (window : ℕ) : ℕ :=
  (windowDates today window).countP
    (fun d => decide (mainQ (lookupJS byDate d) = 0 ∧ 0 < subQ (lookupJS byDate d)))

/-- Spec aggregate: total main hours over the window. -/
def mainSum (byDate : Log) (today : YMD) (window : ℕ) : ℚ :=
  ((windowDates today window).map (fun d => mainQ (lookupJS byDate d))).sum

/-- Spec aggregate: total sub hours over the window. -/
def subSum (byDate : Log) (today : YMD) (window : ℕ) : ℚ :=
  ((windowDates today window).map (fun d => subQ (lookupJS byDate d))).sum

/-- Spec aggregate: total hours over the window. -/
def hoursSum (byDate : Log) (today : YMD) (window : ℕ) : ℚ :=
  ((windowDates today window).map (fun d => hoursQ (lookupJS byDate d))).sum

/-- Spec formula: autonomy ratio `sub/main`, else `2` when only sub hours. -/
def autonomyRatio (m s : ℚ) : ℚ := if 0 < m then s / m else if 0 < s then 2 else 0

/-- Spec formula: autonomy points `min(25, round(ratio * 12.5))`. -/
def autonomyPoints (m s : ℚ) : ℤ := min 25 (round (autonomyRatio m s * 12.5))

/-- Spec formula: ghost percentage, `0` when no active days. -/
def ghostPct (g a : ℕ) : ℚ := if 0 < a then (g : ℚ) / (a : ℚ) else 0

/-- Spec formula: ghost points `min(20, round(pct * 25))`. -/
def ghostPoints (g a : ℕ) : ℤ := min 20 (round (ghostPct g a * 25))

/-- Spec formula: volume points `min(15, round(total/100 * 15))`. -/
def volumePoints (t : ℚ) : ℤ := min 15 (round (t / 100 * 15))

/-- Spec formula: consistency points `round(active/window * 30)`. -/
def consistencyPoints (a w : ℕ) : ℤ := round (((a : ℚ) / (w : ℚ)) * 30)

/-- Spec formula: streak points `min(10, round(streak/30 * 10))`. -/
def streakPoints (n : ℕ) : ℤ := min 10 (round ((n : ℚ) / 30 * 10))

theorem sumWith_main {byDate : Log} (h : WF byDate) (today : YMD) (window : ℕ) :
    sumWith mainContrib byDate today window = .num (mainSum byDate today window) := by
  unfold sumWith mainSum
  rw [foldl_sum_eq byDate mainContrib mainQ
    (fun d p => step_main (lookup_ok h d) p), zero_add]

theorem sumWith_sub {byDate : Log} (h : WF byDate) (today : YMD) (window : ℕ) :
    sumWith subContrib byDate today window = .num (subSum byDate today window) := by
  unfold sumWith subSum
  rw [foldl_sum_eq byDate subContrib subQ
    (fun d p => step_sub (lookup_ok h d) p), zero_add]

theorem sumWith_hours {byDate : Log} (h : WF byDate) (today : YMD) (window : ℕ) :
    sumWith hoursOf byDate today window = .num (hoursSum byDate today window) := by
  unfold sumWith hoursSum
  rw [foldl_sum_eq byDate hoursOf hoursQ
    (fun d p => step_hours (lookup_ok h d) p), zero_add]

theorem countWith_active {byDate : Log} (h : WF byDate) (today : YMD) (window : ℕ) :
    countWith (fun v => jsGtZero (hoursOf v)) byDate today window
      = activeCount byDate today window := by
  unfold countWith activeCount
  exact List.countP_congr (fun d _ => by
    simp only [active_char (lookup_ok h d)])

theorem countWith_ghostActive {byDate : Log} (h : WF byDate) (today : YMD) (window : ℕ) :
    countWith (fun v => jsGtZero (mainContrib v) || jsGtZero (subContrib v))
        byDate today window
      = activeCount byDate today window := by
  unfold countWith activeCount
  exact List.countP_congr (fun d _ => by
    simp only [ghostActive_char (lookup_ok h d)])

theorem countWith_ghost {byDate : Log} (h : WF byDate) (today : YMD) (window : ℕ) :
    countWith
        (fun v => (jsGtZero (mainContrib v) || jsGtZero (subContrib v))
          && (jsStrictEq0 (mainContrib v) && jsGtZero (subContrib v)))
        byDate today window
      = ghostCount byDate today window := by
  unfold countWith ghostCount
  exact List.countP_congr (fun d _ => by
    simp only [ghost_char (lookup_ok h d)])

theorem jsMinRound (c : ℚ) (ci : ℤ) (hc : c = (ci : ℚ)) (x : ℚ) :
    jsMin (.num c) (jsRound (.num x)) = .num ((min ci (round x) : ℤ) : ℚ) := by
  subst hc
  simp only [jsRound_num, jsMin_num_num]
  congr 1
  push_cast
  rfl

/-- Bridge: on a well-formed log, `scoreConsistency` computes the spec
aggregate and formula. -/
theorem scoreConsistency_spec {byDate : Log} (h : WF byDate) (today : YMD) (window : ℕ) :
    scoreConsistency byDate today window =
      ⟨(activeCount byDate today window : ℚ) / (window : ℚ),
       consistencyPoints (activeCount byDate today window) window,
       activeCount byDate today window, window⟩ := by
  simp only [scoreConsistency, countWith_active h]
  rfl

/-- Bridge: on a well-formed log, `scoreGhostDays` computes the spec
aggregates and formula. -/
theorem scoreGhostDays_spec {byDate : Log} (h : WF byDate) (today : YMD) (window : ℕ) :
    scoreGhostDays byDate today window =
      ⟨ghostCount byDate today window,
       activeCount byDate today window,
       ghostPct (ghostCount byDate today window) (activeCount byDate today window),
       ghostPoints (ghostCount byDate today window) (activeCount byDate today window)⟩ := by
  simp only [scoreGhostDays, countWith_ghostActive h, countWith_ghost h]
  rfl

/-- Bridge: on a well-formed log, `scoreAutonomy` computes the spec sums and
the literal ratio and points formulas. -/
theorem scoreAutonomy_spec {byDate : Log} (h : WF byDate) (today : YMD) (window : ℕ) :
    scoreAutonomy byDate today window =
      ⟨.num (autonomyRatio (mainSum byDate today window) (subSum byDate today window)),
       .num ((autonomyPoints (mainSum byDate today window) (subSum byDate today window) : ℤ) : ℚ),
       .num (mainSum byDate today window),
       .num (subSum byDate today window)⟩ := by
  have hratio : ∀ M S : ℚ,
      (if jsGtZero (.num M) then jsDiv (.num S) (.num M)
       else if jsGtZero (.num S) then JVal.num 2 else JVal.num 0)
        = .num (autonomyRatio M S) := by
    intro M S
    by_cases hM : 0 < M
    · simp [jsGtZero_num, hM, autonomyRatio, jsDiv_num_num _ _ (ne_of_gt hM)]
    · by_cases hS : 0 < S
      · simp [jsGtZero_num, hM, hS, autonomyRatio]
      · simp [jsGtZero_num, hM, hS, autonomyRatio]
  simp only [scoreAutonomy, sumWith_main h, sumWith_sub h, hratio,
    jsMul_num_num, jsMinRound 25 25 (by norm_num) _]
  rfl

/-- Bridge: on a well-formed log, `scoreVolume` computes the spec sum and
formula. -/
theorem scoreVolume_spec {byDate : Log} (h : WF byDate) (today : YMD) (window : ℕ) :
    scoreVolume byDate today window =
      ⟨.num (hoursSum byDate today window),
       .num ((volumePoints (hoursSum byDate today window) : ℤ) : ℚ)⟩ := by
  simp only [scoreVolume, sumWith_hours h]
  rw [jsDiv_num_num _ _ (by norm_num : (100 : ℚ) ≠ 0)]
  simp only [jsMul_num_num, jsMinRound 15 15 (by norm_num) _]
  rfl

/-- Bridge: `scoreStreak` is already the spec formula. -/
theorem scoreStreak_spec (n : ℕ) : scoreStreak n = ⟨n, streakPoints n⟩ := rfl

/-- Bridge: on a well-formed log, the total is the integer sum of the five
spec component point values. -/
theorem total_spec {byDate : Log} (h : WF byDate) (today : YMD) :
    total byDate today = .num
      (((consistencyPoints (activeCount byDate today 30) 30
        + autonomyPoints (mainSum byDate today 30) (subSum byDate today 30)
        + ghostPoints (ghostCount byDate today 30) (activeCount byDate today 30)
        + volumePoints (hoursSum byDate today 30)
        + streakPoints (computeStreak byDate today) : ℤ) : ℚ)) := by
  rw [total, scoreConsistency_spec h, scoreAutonomy_spec h, scoreGhostDays_spec h,
    scoreVolume_spec h, scoreStreak_spec]
  simp only [jsAdd_num_num]
  congr 1
  push_cast
  ring

/-! ## Calendar facts: the backward day walk is strictly decreasing -/

theorem daysInMonth_le (y : ℤ) (m : ℕ) : daysInMonth y m ≤ 31 := by
  unfold daysInMonth
  split
  · split <;> omega
  · split <;> omega

theorem daysInMonth_pos (y : ℤ) (m : ℕ) : 1 ≤ daysInMonth y m := by
  unfold daysInMonth
  split
  · split <;> omega
  · split <;> omega

/-- One backward day step strictly decreases the numeric date key. -/
theorem keyZ_prevDay_lt (t : YMD) : keyZ (prevDay t) < keyZ t := by
  have h31 := daysInMonth_le t.y (t.m - 1)
  unfold prevDay keyZ
  split
  · simp only
    omega
  · split
    · simp only
      omega
    · simp only
      omega

theorem keyZ_prevDay_iterate_lt (t : YMD) (k : ℕ) (hk : 0 < k) :
    keyZ (prevDay^[k] t) < keyZ t := by
  induction k with
  | zero => omega
  | succ n ih =>
      rw [Function.iterate_succ_apply']
      rcases Nat.eq_zero_or_pos n with h0 | hp
      · subst h0
        simpa using keyZ_prevDay_lt t
      · exact lt_trans (keyZ_prevDay_lt _) (ih hp)

@[simp] theorem addDays_zero (t : YMD) : addDays t 0 = t := by
  simp [addDays]

/-- Stepping back `i` days is the `i`-fold backward day step. -/
theorem addDays_neg_natCast (t : YMD) (i : ℕ) : addDays t (-(i : ℤ)) = prevDay^[i] t := by
  unfold addDays
  rcases Nat.eq_zero_or_pos i with h0 | hp
  · subst h0; simp
  · rw [if_neg (by omega), neg_neg, Int.toNat_natCast]

theorem addDays_neg_one (t : YMD) : addDays t (-1) = prevDay t := by
  have := addDays_neg_natCast t 1
  norm_num at this
  simpa using this

theorem keyZ_addDays_neg_lt (t : YMD) (i : ℕ) (hi : 0 < i) :
    keyZ (addDays t (-(i : ℤ))) < keyZ t := by
  rw [addDays_neg_natCast]
  exact keyZ_prevDay_iterate_lt t i hi

theorem windowDates_map_prevDay (t : YMD) (w : ℕ) :
    windowDates t w = (List.range w).map (fun i => prevDay^[i] t) := by
  unfold windowDates
  exact List.map_congr_left (fun i _ => addDays_neg_natCast t i)

@[simp] theorem length_windowDates (t : YMD) (w : ℕ) :
    (windowDates t w).length = w := by
  simp [windowDates]

/-- The window visits `w` pairwise distinct dates: no day is double-counted. -/
theorem windowDates_nodup (t : YMD) (w : ℕ) : (windowDates t w).Nodup := by
  rw [windowDates_map_prevDay]
  refine List.Nodup.map_on ?_ (List.nodup_range w)
  intro x _ y _ hf
  rcases Nat.lt_trichotomy x y with hxy | hxy | hxy
  · exfalso
    have e : prevDay^[y] t = prevDay^[y - x] (prevDay^[x] t) := by
      rw [← Function.iterate_add_apply]
      congr 1
      omega
    have hlt := keyZ_prevDay_iterate_lt (prevDay^[x] t) (y - x) (by omega)
    rw [← e, ← hf] at hlt
    exact lt_irrefl _ hlt
  · exact hxy
  · exfalso
    have e : prevDay^[x] t = prevDay^[x - y] (prevDay^[y] t) := by
      rw [← Function.iterate_add_apply]
      congr 1
      omega
    have hlt := keyZ_prevDay_iterate_lt (prevDay^[y] t) (x - y) (by omega)
    rw [← e, hf] at hlt
    exact lt_irrefl _ hlt

/-- No future dates: every window date has key at most the key of today. -/
theorem keyZ_windowDates_le (t : YMD) (w : ℕ) :
    ∀ d ∈ windowDates t w, keyZ d ≤ keyZ t := by
  intro d hd
  rw [windowDates_map_prevDay] at hd
  obtain ⟨i, _, rfl⟩ := List.mem_map.mp hd
  rcases Nat.eq_zero_or_pos i with h0 | hp
  · subst h0; simp
  · exact le_of_lt (keyZ_prevDay_iterate_lt t i hp)

/-- Membership characterisation of the window. -/
theorem mem_windowDates (t : YMD) (w : ℕ) (d : YMD) :
    d ∈ windowDates t w ↔ ∃ i, i < w ∧ d = addDays t (-(i : ℤ)) := by
  unfold windowDates
  simp only [List.mem_map, List.mem_range]
  constructor
  · rintro ⟨i, hi, rfl⟩
    exact ⟨i, hi, rfl⟩
  · rintro ⟨i, hi, rfl⟩
    exact ⟨i, hi, rfl⟩

/-! ## Bounds for the spec formulas -/

theorem round_nonneg {q : ℚ} (h : 0 ≤ q) : 0 ≤ round q := by
  rw [round_eq]
  exact Int.floor_nonneg.mpr (by linarith)

theorem round_le_of_le {a b : ℚ} (h : a ≤ b) : round a ≤ round b := by
  rw [round_eq, round_eq]
  exact Int.floor_le_floor (by linarith)

theorem consistencyPoints_eq_active (a : ℕ) : consistencyPoints a 30 = a := by
  unfold consistencyPoints
  push_cast
  rw [div_mul_cancel₀ _ (by norm_num : (30 : ℚ) ≠ 0), round_natCast]

theorem autonomyRatio_nonneg {m s : ℚ} (hm : 0 ≤ m) (hs : 0 ≤ s) :
    0 ≤ autonomyRatio m s := by
  unfold autonomyRatio
  split
  · exact div_nonneg hs hm
  · split <;> norm_num

theorem autonomyPoints_bounds {m s : ℚ} (hm : 0 ≤ m) (hs : 0 ≤ s) :
    0 ≤ autonomyPoints m s ∧ autonomyPoints m s ≤ 25 := by
  unfold autonomyPoints
  refine ⟨le_min (by norm_num) ?_, min_le_left _ _⟩
  exact round_nonneg (mul_nonneg (autonomyRatio_nonneg hm hs) (by norm_num))

theorem ghostPct_bounds {g a : ℕ} (hga : g ≤ a) :
    0 ≤ ghostPct g a ∧ ghostPct g a ≤ 1 := by
  unfold ghostPct
  split
  · refine ⟨div_nonneg (by positivity) (by positivity), ?_⟩
    rw [div_le_one (by positivity)]
    exact_mod_cast hga
  · norm_num

theorem ghostPoints_bounds {g a : ℕ} (hga : g ≤ a) :
    0 ≤ ghostPoints g a ∧ ghostPoints g a ≤ 20 := by
  obtain ⟨h0, _⟩ := ghostPct_bounds (g := g) (a := a) hga
  unfold ghostPoints
  exact ⟨le_min (by norm_num) (round_nonneg (by positivity)), min_le_left _ _⟩

theorem volumePoints_bounds {t : ℚ} (ht : 0 ≤ t) :
    0 ≤ volumePoints t ∧ volumePoints t ≤ 15 := by
  unfold volumePoints
  exact ⟨le_min (by norm_num) (round_nonneg (by positivity)), min_le_left _ _⟩

theorem streakPoints_bounds (n : ℕ) :
    0 ≤ streakPoints n ∧ streakPoints n ≤ 10 := by
  unfold streakPoints
  exact ⟨le_min (by norm_num) (round_nonneg (by positivity)), min_le_left _ _⟩

theorem activeCount_le (byDate : Log) (today : YMD) (window : ℕ) :
    activeCount byDate today window ≤ window := by
  calc activeCount byDate today window
      ≤ (windowDates today window).length := List.countP_le_length _
    _ = window := length_windowDates today window

theorem ghostCount_le_activeCount (byDate : Log) (today : YMD) (window : ℕ) :
    ghostCount byDate today window ≤ activeCount byDate today window := by
  refine List.countP_mono_left ?_
  intro d _ hp
  simp only [decide_eq_true_eq] at hp ⊢
  rw [hoursQ, hp.1, zero_add]
  exact hp.2

theorem mainSum_nonneg {byDate : Log} (h : WF byDate) (today : YMD) (window : ℕ) :
    0 ≤ mainSum byDate today window := by
  refine List.sum_nonneg ?_
  intro x hx
  obtain ⟨d, _, rfl⟩ := List.mem_map.mp hx
  exact mainQ_nonneg (lookup_ok h d)

theorem subSum_nonneg {byDate : Log} (h : WF byDate) (today : YMD) (window : ℕ) :
    0 ≤ subSum byDate today window := by
  refine List.sum_nonneg ?_
  intro x hx
  obtain ⟨d, _, rfl⟩ := List.mem_map.mp hx
  exact subQ_nonneg (lookup_ok h d)

theorem hoursSum_nonneg {byDate : Log} (h : WF byDate) (today : YMD) (window : ℕ) :
    0 ≤ hoursSum byDate today window := by
  refine List.sum_nonneg ?_
  intro x hx
  obtain ⟨d, _, rfl⟩ := List.mem_map.mp hx
  exact hoursQ_nonneg (lookup_ok h d)

theorem consistencyPoints_bounds (byDate : Log) (today : YMD) :
    0 ≤ consistencyPoints (activeCount byDate today 30) 30
      ∧ consistencyPoints (activeCount byDate today 30) 30 ≤ 30 := by
  rw [consistencyPoints_eq_active]
  constructor
  · positivity
  · exact_mod_cast activeCount_le byDate today 30

/-! ## Termination of the streak walk

The JS `while (byDate[d])` loop requires a record at every counted date, and
the visited dates strictly decrease, so it runs at most as many steps as the
log has entries under any date it visits.  `belowCount` is that measure. -/

/-- Number of log entries whose date key is at most the key of `d`. -/
def belowCount (byDate : Log) (d : YMD) : ℕ :=
  byDate.countP (fun e => decide (keyZ e.1 ≤ keyZ d))

theorem truthy_lookup_mem {byDate : Log} {d : YMD}
    (h : truthy (lookupJS byDate d) = true) : (d, lookupJS byDate d) ∈ byDate := by
  induction byDate with
  | nil => simp [lookupJS, truthy] at h
  | cons e rest ih =>
      obtain ⟨k, v⟩ := e
      by_cases hk : k = d
      · subst hk
        simp only [lookupJS, if_pos rfl]
        exact List.mem_cons_self _ _
      · simp only [lookupJS, if_neg hk] at h ⊢
        exact List.mem_cons_of_mem _ (ih h)

theorem countP_lt_of_mem {α : Type} (l : List α) (p q : α → Bool)
    (hpq : ∀ a ∈ l, p a = true → q a = true) (a₀ : α) (ha : a₀ ∈ l)
    (hq : q a₀ = true) (hp : p a₀ = false) : l.countP p < l.countP q := by
  induction l with
  | nil => cases ha
  | cons x xs ih =>
      rw [List.countP_cons, List.countP_cons]
      have hmono : xs.countP p ≤ xs.countP q :=
        List.countP_mono_left (fun a h hpa => hpq a (List.mem_cons_of_mem _ h) hpa)
      rcases List.mem_cons.mp ha with rfl | hmem
      · rw [hp, hq]
        simp only [if_true, if_false, Bool.false_eq_true]
        omega
      · have hstrict := ih (fun a h hpa => hpq a (List.mem_cons_of_mem _ h) hpa) hmem
        have hx : p x = true → q x = true := hpq x (List.mem_cons_self _ _)
        cases hpx : p x <;> cases hqx : q x <;> simp_all <;> omega

theorem belowCount_le_length (byDate : Log) (d : YMD) :
    belowCount byDate d ≤ byDate.length :=
  List.countP_le_length _

theorem belowCount_addDays_lt {byDate : Log} {d : YMD}
    (h : truthy (lookupJS byDate d) = true) :
    belowCount byDate (addDays d (-1)) < belowCount byDate d := by
  unfold belowCount
  refine countP_lt_of_mem byDate _ _ ?_ (d, lookupJS byDate d) (truthy_lookup_mem h) ?_ ?_
  · intro a _ hpa
    simp only [decide_eq_true_eq] at hpa ⊢
    calc keyZ a.1 ≤ keyZ (addDays d (-1)) := hpa
      _ ≤ keyZ d := by
          rw [addDays_neg_one]
          exact le_of_lt (keyZ_prevDay_lt d)
  · simp
  · simp only [decide_eq_false_iff_not, not_le, addDays_neg_one]
    exact keyZ_prevDay_lt d

theorem streakGo_falsy {byDate : Log} {d : YMD}
    (h : truthy (lookupJS byDate d) = false) (fuel : ℕ) :
    streakGo byDate d fuel = 0 := by
  cases fuel with
  | zero => rfl
  | succ n => simp only [streakGo, h]; rfl

theorem streakGo_zero_hours {byDate : Log} {d : YMD}
    (h : jsStrictEq0 (hoursOf (lookupJS byDate d)) = true) (fuel : ℕ) :
    streakGo byDate d fuel = 0 := by
  cases fuel with
  | zero => rfl
  | succ n =>
      simp only [streakGo, h]
      split <;> rfl

/-- The walk counts at most `belowCount` many days, whatever the fuel: each
counted day has a record, and the dates strictly decrease. -/
theorem streakGo_le_belowCount (byDate : Log) :
    ∀ (fuel : ℕ) (d : YMD), streakGo byDate d fuel ≤ belowCount byDate d := by
  intro fuel
  induction fuel with
  | zero => intro d; exact Nat.zero_le _
  | succ n ih =>
      intro d
      cases htr : truthy (lookupJS byDate d) with
      | false => rw [streakGo_falsy htr]; exact Nat.zero_le _
      | true =>
          cases hz : jsStrictEq0 (hoursOf (lookupJS byDate d)) with
          | true => rw [streakGo_zero_hours hz]; exact Nat.zero_le _
          | false =>
              have hlt := belowCount_addDays_lt htr
              have hrec := ih (addDays d (-1))
              simp [streakGo, htr, hz]
              omega

/-- Fuel independence: with fuel at least the measure, the walk has already
stopped on its own, so every such fuel computes the same streak.  This is the
termination of the unbounded JS loop. -/
theorem streakGo_stable (byDate : Log) :
    ∀ (fuel₁ fuel₂ : ℕ) (d : YMD), belowCount byDate d ≤ fuel₁ →
      belowCount byDate d ≤ fuel₂ →
      streakGo byDate d fuel₁ = streakGo byDate d fuel₂ := by
  intro fuel₁
  induction fuel₁ with
  | zero =>
      intro fuel₂ d h1 _
      cases htr : truthy (lookupJS byDate d) with
      | false => rw [streakGo_falsy htr, streakGo_falsy htr]
      | true =>
          exfalso
          have hmem := truthy_lookup_mem htr
          have : 0 < belowCount byDate d := by
            rw [belowCount, List.countP_pos_iff]
            exact ⟨(d, lookupJS byDate d), hmem, by simp⟩
          omega
  | succ n ih =>
      intro fuel₂ d h1 h2
      cases htr : truthy (lookupJS byDate d) with
      | false => rw [streakGo_falsy htr, streakGo_falsy htr]
      | true =>
          have hmem := truthy_lookup_mem htr
          have hpos : 0 < belowCount byDate d := by
            rw [belowCount, List.countP_pos_iff]
            exact ⟨(d, lookupJS byDate d), hmem, by simp⟩
          cases fuel₂ with
          | zero => omega
          | succ k =>
              cases hz : jsStrictEq0 (hoursOf (lookupJS byDate d)) with
              | true => rw [streakGo_zero_hours hz, streakGo_zero_hours hz]
              | false =>
                  have hlt := belowCount_addDays_lt htr
                  simp [streakGo, htr, hz]
                  have := ih k (addDays d (-1)) (by omega) (by omega)
                  omega

/-! ## Evaluating the window on small concrete logs -/

theorem windowDates_succ (t : YMD) (w : ℕ) :
    windowDates t (w + 1) = t :: windowDates (prevDay t) w := by
  rw [windowDates_map_prevDay, windowDates_map_prevDay, List.range_succ_eq_map,
    List.map_cons, List.map_map]
  simp [Function.comp_def, Function.iterate_succ_apply]

theorem ne_of_keyZ_lt {a b : YMD} (h : keyZ a < keyZ b) : a ≠ b := by
  intro e
  rw [e] at h
  exact lt_irrefl _ h

/-- Dates of the window anchored strictly below `t` never equal `t`. -/
theorem windowDates_prevDay_ne (t : YMD) (w : ℕ) :
    ∀ d ∈ windowDates (prevDay t) w, d ≠ t := by
  intro d hd
  have h1 := keyZ_windowDates_le (prevDay t) w d hd
  have h2 := keyZ_prevDay_lt t
  exact ne_of_keyZ_lt (lt_of_le_of_lt h1 h2)

theorem sum_miss {byDate : Log} (fQ : JVal → ℚ) (h0 : fQ .undefined = 0)
    (dates : List YMD) (h : ∀ d ∈ dates, lookupJS byDate d = .undefined) :
    (dates.map (fun d => fQ (lookupJS byDate d))).sum = 0 := by
  induction dates with
  | nil => rfl
  | cons a l ih =>
      rw [List.map_cons, List.sum_cons, h a (List.mem_cons_self _ _), h0,
        ih (fun d hd => h d (List.mem_cons_of_mem _ hd)), add_zero]

theorem lookup_single_ne {t d : YMD} {v : JVal} (h : d ≠ t) :
    lookupJS [(t, v)] d = .undefined := by
  simp only [lookupJS]
  rw [if_neg (fun e => h e.symm)]

/-- Window sum of a one-entry log whose key is the anchor: only the anchor
date hits. -/
theorem specsum_single (fQ : JVal → ℚ) (h0 : fQ .undefined = 0) (t : YMD) (v : JVal)
    {w : ℕ} (hw : 1 ≤ w) :
    ((windowDates t w).map (fun d => fQ (lookupJS [(t, v)] d))).sum = fQ v := by
  obtain ⟨w', rfl⟩ : ∃ w', w = w' + 1 := ⟨w - 1, by omega⟩
  rw [windowDates_succ, List.map_cons, List.sum_cons]
  have hmiss : ∀ d ∈ windowDates (prevDay t) w', lookupJS [(t, v)] d = .undefined :=
    fun d hd => lookup_single_ne (windowDates_prevDay_ne t w' d hd)
  rw [sum_miss fQ h0 _ hmiss, add_zero]
  simp [lookupJS]

theorem lookup_pair_fst (t : YMD) (v1 v2 : JVal) :
    lookupJS [(t, v1), (prevDay t, v2)] t = v1 := by
  simp [lookupJS]

theorem lookup_pair_snd (t : YMD) (v1 v2 : JVal) :
    lookupJS [(t, v1), (prevDay t, v2)] (prevDay t) = v2 := by
  have hne : t ≠ prevDay t := (ne_of_keyZ_lt (keyZ_prevDay_lt t)).symm
  simp only [lookupJS]
  rw [if_neg hne]
  simp

theorem lookup_pair_miss {t d : YMD} {v1 v2 : JVal} (h1 : d ≠ t) (h2 : d ≠ prevDay t) :
    lookupJS [(t, v1), (prevDay t, v2)] d = .undefined := by
  simp only [lookupJS]
  rw [if_neg (fun e => h1 e.symm), if_neg (fun e => h2 e.symm)]

/-- Window sum of a two-entry log keyed by the anchor and the previous day. -/
theorem specsum_pair (fQ : JVal → ℚ) (h0 : fQ .undefined = 0) (t : YMD) (v1 v2 : JVal)
    {w : ℕ} (hw : 2 ≤ w) :
    ((windowDates t w).map (fun d => fQ (lookupJS [(t, v1), (prevDay t, v2)] d))).sum
      = fQ v1 + fQ v2 := by
  obtain ⟨w', rfl⟩ : ∃ w', w = w' + 2 := ⟨w - 2, by omega⟩
  rw [windowDates_succ, windowDates_succ, List.map_cons, List.map_cons,
    List.sum_cons, List.sum_cons]
  have hmiss : ∀ d ∈ windowDates (prevDay (prevDay t)) w',
      lookupJS [(t, v1), (prevDay t, v2)] d = .undefined := by
    intro d hd
    have hne2 : d ≠ prevDay t := windowDates_prevDay_ne (prevDay t) w' d hd
    have h1 := keyZ_windowDates_le (prevDay (prevDay t)) w' d hd
    have hlt : keyZ d < keyZ t :=
      lt_of_le_of_lt h1 (lt_trans (keyZ_prevDay_lt (prevDay t)) (keyZ_prevDay_lt t))
    exact lookup_pair_miss (ne_of_keyZ_lt hlt) hne2
  rw [sum_miss fQ h0 _ hmiss, add_zero, lookup_pair_fst, lookup_pair_snd]

/-- The raw summing loop skips dates with no record. -/
theorem foldl_miss {byDate : Log} (f : JVal → JVal) (dates : List YMD)
    (h : ∀ d ∈ dates, lookupJS byDate d = .undefined) (acc : JVal) :
    dates.foldl
      (fun acc d =>
        let v := lookupJS byDate d
        if truthy v then jsAdd acc (f v) else acc) acc = acc := by
  induction dates generalizing acc with
  | nil => rfl
  | cons a l ih =>
      rw [List.foldl_cons]
      have ha := h a (List.mem_cons_self _ _)
      have : (let v := lookupJS byDate a
              if truthy v then jsAdd acc (f v) else acc) = acc := by
        rw [ha]; rfl
      rw [this]
      exact ih (fun d hd => h d (List.mem_cons_of_mem _ hd)) acc

/-- The raw summing loop over a two-entry log keyed by the anchor and the
previous day: two guarded additions, in visiting order. -/
theorem sumWith_pair (f : JVal → JVal) (t : YMD) (v1 v2 : JVal)
    {w : ℕ} (hw : 2 ≤ w) :
    sumWith f [(t, v1), (prevDay t, v2)] t w
      = (if truthy v2
         then jsAdd (if truthy v1 then jsAdd (.num 0) (f v1) else .num 0) (f v2)
         else (if truthy v1 then jsAdd (.num 0) (f v1) else .num 0)) := by
  obtain ⟨w', rfl⟩ : ∃ w', w = w' + 2 := ⟨w - 2, by omega⟩
  unfold sumWith
  rw [windowDates_succ, windowDates_succ, List.foldl_cons, List.foldl_cons]
  have hmiss : ∀ d ∈ windowDates (prevDay (prevDay t)) w',
      lookupJS [(t, v1), (prevDay t, v2)] d = .undefined := by
    intro d hd
    have hne2 : d ≠ prevDay t := windowDates_prevDay_ne (prevDay t) w' d hd
    have h1 := keyZ_windowDates_le (prevDay (prevDay t)) w' d hd
    have hlt : keyZ d < keyZ t :=
      lt_of_le_of_lt h1 (lt_trans (keyZ_prevDay_lt (prevDay t)) (keyZ_prevDay_lt t))
    exact lookup_pair_miss (ne_of_keyZ_lt hlt) hne2
  rw [foldl_miss f _ hmiss]
  rw [lookup_pair_fst, lookup_pair_snd]

/-! ## Claim theorems -/

/-- C9: for every finite log and anchor date the streak walk terminates: any
fuel of at least the number of log entries computes the same value (the limit
of the unbounded JS loop, which `computeStreak` returns), and the result is a
natural number bounded by the number of entries in the log. -/
theorem claim_C9_streak_terminates (byDate : Log) (today : YMD) (fuel : ℕ)
    (hf : byDate.length ≤ fuel) :
    streakGo byDate
        (if truthy (lookupJS byDate today) then today else addDays today (-1)) fuel
      = computeStreak byDate today
    ∧ computeStreak byDate today ≤ byDate.length := by
  constructor
  · unfold computeStreak
    exact streakGo_stable byDate fuel byDate.length _
      (le_trans (belowCount_le_length _ _) hf)
      (belowCount_le_length _ _)
  · unfold computeStreak
    exact le_trans (streakGo_le_belowCount byDate _ _) (belowCount_le_length _ _)

theorem claim_C9_witness :
    streakGo [(⟨2024, 5, 9⟩, .num 5)]
        (if truthy (lookupJS [(⟨2024, 5, 9⟩, .num 5)] ⟨2024, 5, 10⟩)
         then ⟨2024, 5, 10⟩ else addDays ⟨2024, 5, 10⟩ (-1)) 7
      = computeStreak [(⟨2024, 5, 9⟩, .num 5)] ⟨2024, 5, 10⟩
    ∧ computeStreak [(⟨2024, 5, 9⟩, .num 5)] ⟨2024, 5, 10⟩
      ≤ ([(⟨2024, 5, 9⟩, .num 5)] : Log).length :=
  claim_C9_streak_terminates [(⟨2024, 5, 9⟩, .num 5)] ⟨2024, 5, 10⟩ 7 (by decide)

/-- Log of 36 consecutive active days ending 2024-03-14; the anchor
2024-03-15 has no record. -/
def streakDemoLog : Log :=
  (List.range 36).map (fun (i : ℕ) => (addDays ⟨2024, 3, 14⟩ (-(i : ℤ)), .num 1))

/-- C6: when the anchor date has no record the walk starts at the previous
calendar day; on a log where yesterday and the 35 days before it are all
active and today is absent, the detector returns exactly 36. -/
theorem claim_C6_anchor_fallback :
    (∀ (byDate : Log) (today : YMD), lookupJS byDate today = .undefined →
      computeStreak byDate today = streakGo byDate (addDays today (-1)) byDate.length)
    ∧ computeStreak streakDemoLog ⟨2024, 3, 15⟩ = 36
    ∧ lookupJS streakDemoLog ⟨2024, 3, 15⟩ = .undefined
    ∧ streakDemoLog.length = 36
    ∧ (∀ i : ℕ, i < 36 →
        truthy (lookupJS streakDemoLog (addDays ⟨2024, 3, 14⟩ (-(i : ℤ)))) = true
        ∧ jsStrictEq0 (hoursOf (lookupJS streakDemoLog (addDays ⟨2024, 3, 14⟩ (-(i : ℤ)))))
            = false) := by
  refine ⟨?_, by decide, by decide, by decide, by decide⟩
  intro byDate today h
  unfold computeStreak
  rw [h]
  rfl

theorem claim_C6_witness :
    computeStreak [(⟨2024, 5, 9⟩, .num 5)] ⟨2024, 5, 10⟩
      = streakGo [(⟨2024, 5, 9⟩, .num 5)] (addDays ⟨2024, 5, 10⟩ (-1))
          ([(⟨2024, 5, 9⟩, .num 5)] : Log).length :=
  claim_C6_anchor_fallback.1 [(⟨2024, 5, 9⟩, .num 5)] ⟨2024, 5, 10⟩ (by decide)

theorem jsGeNum_int (cq : ℚ) (c t : ℤ) (hc : cq = (c : ℚ)) :
    jsGeNum (.num (t : ℚ)) cq = decide (c ≤ t) := by
  subst hc
  simp only [jsGeNum, toNumber]
  exact decide_eq_decide.mpr (by exact_mod_cast Iff.rfl)

theorem grade_int (t : ℤ) : grade (.num (t : ℚ)) =
    (if 90 ≤ t then ⟨"S", "Cyborg", "You and AI are seamlessly fused."⟩
     else if 75 ≤ t then ⟨"A", "Power User", "Serious AI collaboration."⟩
     else if 60 ≤ t then ⟨"B", "Growing", "Your AI habits are taking shape."⟩
     else if 45 ≤ t then ⟨"C", "Early Stage", "Room to develop the relationship."⟩
     else if 30 ≤ t then ⟨"D", "Getting Started", "Keep going."⟩
     else ⟨"F", "Dormant", "Wake up your AI."⟩) := by
  simp only [grade,
    jsGeNum_int 90 90 t (by norm_num), jsGeNum_int 75 75 t (by norm_num),
    jsGeNum_int 60 60 t (by norm_num), jsGeNum_int 45 45 t (by norm_num),
    jsGeNum_int 30 30 t (by norm_num), decide_eq_true_eq]

/-- C4: the grade is a pure lookup over six ordered ranges, inclusive at the
lower bound; the stated boundary totals land on the stated tiers. -/
theorem claim_C4_grade_ranges (t : ℤ) :
    ((90 ≤ t ∧ t ≤ 100) →
      grade (.num (t : ℚ)) = ⟨"S", "Cyborg", "You and AI are seamlessly fused."⟩)
    ∧ ((75 ≤ t ∧ t ≤ 89) →
      grade (.num (t : ℚ)) = ⟨"A", "Power User", "Serious AI collaboration."⟩)
    ∧ ((60 ≤ t ∧ t ≤ 74) →
      grade (.num (t : ℚ)) = ⟨"B", "Growing", "Your AI habits are taking shape."⟩)
    ∧ ((45 ≤ t ∧ t ≤ 59) →
      grade (.num (t : ℚ)) = ⟨"C", "Early Stage", "Room to develop the relationship."⟩)
    ∧ ((30 ≤ t ∧ t ≤ 44) →
      grade (.num (t : ℚ)) = ⟨"D", "Getting Started", "Keep going."⟩)
    ∧ ((0 ≤ t ∧ t ≤ 29) →
      grade (.num (t : ℚ)) = ⟨"F", "Dormant", "Wake up your AI."⟩)
    ∧ (grade (.num 90)).grade = "S"
    ∧ (grade (.num 89)).grade = "A"
    ∧ (grade (.num 75)).grade = "A"
    ∧ (grade (.num 74)).grade = "B" := by
  refine ⟨?_, ?_, ?_, ?_, ?_, ?_, by decide, by decide, by decide, by decide⟩ <;>
    (rintro ⟨h1, h2⟩; rw [grade_int]) <;>
    first
    | rw [if_pos (by omega)]
    | (rw [if_neg (by omega), if_pos (by omega)])
    | (rw [if_neg (by omega), if_neg (by omega), if_pos (by omega)])
    | (rw [if_neg (by omega), if_neg (by omega), if_neg (by omega), if_pos (by omega)])
    | (rw [if_neg (by omega), if_neg (by omega), if_neg (by omega), if_neg (by omega),
        if_pos (by omega)])
    | (rw [if_neg (by omega), if_neg (by omega), if_neg (by omega), if_neg (by omega),
        if_neg (by omega)])

theorem claim_C4_witness :
    grade (.num ((74 : ℤ) : ℚ)) = ⟨"B", "Growing", "Your AI habits are taking shape."⟩ :=
  (claim_C4_grade_ranges 74).2.2.1 ⟨by decide, by decide⟩

theorem countWith_window_congr (p : JVal → Bool) {l1 l2 : Log} {t : YMD} {w : ℕ}
    (h : ∀ d ∈ windowDates t w, lookupJS l1 d = lookupJS l2 d) :
    countWith p l1 t w = countWith p l2 t w := by
  unfold countWith
  refine List.countP_congr ?_
  intro d hd
  simp only [h d hd]

theorem sumWith_window_congr (f : JVal → JVal) {l1 l2 : Log} {t : YMD} {w : ℕ}
    (h : ∀ d ∈ windowDates t w, lookupJS l1 d = lookupJS l2 d) :
    sumWith f l1 t w = sumWith f l2 t w := by
  unfold sumWith
  suffices h' : ∀ (dates : List YMD),
      (∀ d ∈ dates, lookupJS l1 d = lookupJS l2 d) → ∀ acc : JVal,
      dates.foldl
        (fun acc d =>
          let v := lookupJS l1 d
          if truthy v then jsAdd acc (f v) else acc) acc
        = dates.foldl
          (fun acc d =>
            let v := lookupJS l2 d
            if truthy v then jsAdd acc (f v) else acc) acc by
    exact h' _ h _
  intro dates hdates
  induction dates with
  | nil => intro acc; rfl
  | cons a l ih =>
      intro acc
      simp only [List.foldl_cons, hdates a (List.mem_cons_self _ _)]
      exact ih (fun d hd => hdates d (List.mem_cons_of_mem _ hd)) _

/-- C10: the four window scorers read nothing outside the 30-day window: two
logs that agree on every window date produce identical results, points and
diagnostic fields alike. -/
theorem claim_C10_window_locality (l1 l2 : Log) (today : YMD)
    (h : ∀ d ∈ windowDates today 30, lookupJS l1 d = lookupJS l2 d) :
    scoreConsistency l1 today 30 = scoreConsistency l2 today 30
    ∧ scoreAutonomy l1 today 30 = scoreAutonomy l2 today 30
    ∧ scoreGhostDays l1 today 30 = scoreGhostDays l2 today 30
    ∧ scoreVolume l1 today 30 = scoreVolume l2 today 30 := by
  refine ⟨?_, ?_, ?_, ?_⟩
  · unfold scoreConsistency
    rw [countWith_window_congr _ h]
  · unfold scoreAutonomy
    rw [sumWith_window_congr mainContrib h, sumWith_window_congr subContrib h]
  · unfold scoreGhostDays
    rw [countWith_window_congr _ h, countWith_window_congr _ h]
  · unfold scoreVolume
    rw [sumWith_window_congr hoursOf h]

theorem claim_C10_witness :
    scoreConsistency [(⟨1999, 5, 9⟩, .num 5)] ⟨2024, 5, 10⟩ 30
      = scoreConsistency [] ⟨2024, 5, 10⟩ 30
    ∧ scoreAutonomy [(⟨1999, 5, 9⟩, .num 5)] ⟨2024, 5, 10⟩ 30
      = scoreAutonomy [] ⟨2024, 5, 10⟩ 30
    ∧ scoreGhostDays [(⟨1999, 5, 9⟩, .num 5)] ⟨2024, 5, 10⟩ 30
      = scoreGhostDays [] ⟨2024, 5, 10⟩ 30
    ∧ scoreVolume [(⟨1999, 5, 9⟩, .num 5)] ⟨2024, 5, 10⟩ 30
      = scoreVolume [] ⟨2024, 5, 10⟩ 30 :=
  claim_C10_window_locality [(⟨1999, 5, 9⟩, .num 5)] [] ⟨2024, 5, 10⟩ (by decide)

/-- C5: every window aggregator walks exactly the 30 dates
today, today-1, ..., today-29: pairwise distinct, none after today in the
calendar key order, characterised by the offsets 0..29; a missing record
contributes zero hours, and the day decrement rolls over month and year
boundaries on pure y/m/d arithmetic (leap February, non-leap February, and a
year boundary shown concretely). -/
theorem claim_C5_window_walk (byDate : Log) (today : YMD) (h : WF byDate) :
    (windowDates today 30).Nodup
    ∧ (windowDates today 30).length = 30
    ∧ (∀ d ∈ windowDates today 30, keyZ d ≤ keyZ today)
    ∧ (∀ d, d ∈ windowDates today 30 ↔ ∃ i : ℕ, i < 30 ∧ d = addDays today (-(i : ℤ)))
    ∧ addDays today 0 = today
    ∧ (∀ i : ℕ, 0 < i → keyZ (addDays today (-(i : ℤ))) < keyZ today)
    ∧ (scoreVolume byDate today 30).totalHours
        = .num (((windowDates today 30).map (fun d => hoursQ (lookupJS byDate d))).sum)
    ∧ hoursQ .undefined = 0
    ∧ addDays ⟨2024, 3, 1⟩ (-1) = ⟨2024, 2, 29⟩
    ∧ addDays ⟨2023, 3, 1⟩ (-1) = ⟨2023, 2, 28⟩
    ∧ addDays ⟨2025, 1, 1⟩ (-1) = ⟨2024, 12, 31⟩ := by
  refine ⟨windowDates_nodup today 30, length_windowDates today 30,
    keyZ_windowDates_le today 30, mem_windowDates today 30,
    addDays_zero today, keyZ_addDays_neg_lt today, ?_,
    by norm_num [hoursQ, mainQ, subQ],
    by decide, by decide, by decide⟩
  rw [scoreVolume_spec h]
  rfl

theorem claim_C5_witness :
    (windowDates ⟨2024, 5, 10⟩ 30).Nodup
    ∧ (windowDates ⟨2024, 5, 10⟩ 30).length = 30
    ∧ (∀ d ∈ windowDates ⟨2024, 5, 10⟩ 30, keyZ d ≤ keyZ ⟨2024, 5, 10⟩)
    ∧ (∀ d, d ∈ windowDates ⟨2024, 5, 10⟩ 30
        ↔ ∃ i : ℕ, i < 30 ∧ d = addDays ⟨2024, 5, 10⟩ (-(i : ℤ)))
    ∧ addDays ⟨2024, 5, 10⟩ 0 = ⟨2024, 5, 10⟩
    ∧ (∀ i : ℕ, 0 < i → keyZ (addDays ⟨2024, 5, 10⟩ (-(i : ℤ))) < keyZ ⟨2024, 5, 10⟩)
    ∧ (scoreVolume [] ⟨2024, 5, 10⟩ 30).totalHours
        = .num (((windowDates ⟨2024, 5, 10⟩ 30).map
            (fun d => hoursQ (lookupJS [] d))).sum)
    ∧ hoursQ .undefined = 0
    ∧ addDays ⟨2024, 3, 1⟩ (-1) = ⟨2024, 2, 29⟩
    ∧ addDays ⟨2023, 3, 1⟩ (-1) = ⟨2023, 2, 28⟩
    ∧ addDays ⟨2025, 1, 1⟩ (-1) = ⟨2024, 12, 31⟩ :=
  claim_C5_window_walk [] ⟨2024, 5, 10⟩ (by intro e he; cases he)

/-- C1: on every log of non-negative hours and every anchor date, each
component's points are an integer within `[0, max]` for the component maxima
30, 25, 20, 15, 10 — consistency included, although it has no explicit cap —
and the total is exactly the sum of the five component points, hence within
`[0, 100]`. -/
theorem claim_C1_component_bounds (byDate : Log) (today : YMD) (h : WF byDate) :
    ∃ pa pv : ℤ,
      (scoreAutonomy byDate today 30).points = .num ((pa : ℤ) : ℚ)
      ∧ (scoreVolume byDate today 30).points = .num ((pv : ℤ) : ℚ)
      ∧ 0 ≤ (scoreConsistency byDate today 30).points
      ∧ (scoreConsistency byDate today 30).points ≤ 30
      ∧ 0 ≤ pa ∧ pa ≤ 25
      ∧ 0 ≤ (scoreGhostDays byDate today 30).points
      ∧ (scoreGhostDays byDate today 30).points ≤ 20
      ∧ 0 ≤ pv ∧ pv ≤ 15
      ∧ 0 ≤ (scoreStreak (computeStreak byDate today)).points
      ∧ (scoreStreak (computeStreak byDate today)).points ≤ 10
      ∧ total byDate today = .num
          ((((scoreConsistency byDate today 30).points + pa
            + (scoreGhostDays byDate today 30).points + pv
            + (scoreStreak (computeStreak byDate today)).points : ℤ)) : ℚ)
      ∧ 0 ≤ (scoreConsistency byDate today 30).points + pa
            + (scoreGhostDays byDate today 30).points + pv
            + (scoreStreak (computeStreak byDate today)).points
      ∧ (scoreConsistency byDate today 30).points + pa
            + (scoreGhostDays byDate today 30).points + pv
            + (scoreStreak (computeStreak byDate today)).points ≤ 100 := by
  obtain ⟨hA0, hA1⟩ := autonomyPoints_bounds (mainSum_nonneg h today 30)
    (subSum_nonneg h today 30)
  obtain ⟨hV0, hV1⟩ := volumePoints_bounds (hoursSum_nonneg h today 30)
  obtain ⟨hC0, hC1⟩ := consistencyPoints_bounds byDate today
  obtain ⟨hG0, hG1⟩ := ghostPoints_bounds (ghostCount_le_activeCount byDate today 30)
  obtain ⟨hS0, hS1⟩ := streakPoints_bounds (computeStreak byDate today)
  refine ⟨autonomyPoints (mainSum byDate today 30) (subSum byDate today 30),
          volumePoints (hoursSum byDate today 30),
          by rw [scoreAutonomy_spec h], by rw [scoreVolume_spec h],
          ?_, ?_, hA0, hA1, ?_, ?_, hV0, hV1, ?_, ?_, ?_, ?_, ?_⟩
  · rw [scoreConsistency_spec h]; exact hC0
  · rw [scoreConsistency_spec h]; exact hC1
  · rw [scoreGhostDays_spec h]; exact hG0
  · rw [scoreGhostDays_spec h]; exact hG1
  · rw [scoreStreak_spec]; exact hS0
  · rw [scoreStreak_spec]; exact hS1
  · rw [total_spec h, scoreConsistency_spec h, scoreGhostDays_spec h, scoreStreak_spec]
  · rw [scoreConsistency_spec h, scoreGhostDays_spec h, scoreStreak_spec]
    dsimp only
    omega
  · rw [scoreConsistency_spec h, scoreGhostDays_spec h, scoreStreak_spec]
    dsimp only
    omega

theorem claim_C1_witness :
    ∃ pa pv : ℤ,
      (scoreAutonomy [(⟨2024, 5, 10⟩, .num 3)] ⟨2024, 5, 10⟩ 30).points
        = .num ((pa : ℤ) : ℚ)
      ∧ (scoreVolume [(⟨2024, 5, 10⟩, .num 3)] ⟨2024, 5, 10⟩ 30).points
        = .num ((pv : ℤ) : ℚ)
      ∧ 0 ≤ (scoreConsistency [(⟨2024, 5, 10⟩, .num 3)] ⟨2024, 5, 10⟩ 30).points
      ∧ (scoreConsistency [(⟨2024, 5, 10⟩, .num 3)] ⟨2024, 5, 10⟩ 30).points ≤ 30
      ∧ 0 ≤ pa ∧ pa ≤ 25
      ∧ 0 ≤ (scoreGhostDays [(⟨2024, 5, 10⟩, .num 3)] ⟨2024, 5, 10⟩ 30).points
      ∧ (scoreGhostDays [(⟨2024, 5, 10⟩, .num 3)] ⟨2024, 5, 10⟩ 30).points ≤ 20
      ∧ 0 ≤ pv ∧ pv ≤ 15
      ∧ 0 ≤ (scoreStreak (computeStreak [(⟨2024, 5, 10⟩, .num 3)] ⟨2024, 5, 10⟩)).points
      ∧ (scoreStreak (computeStreak [(⟨2024, 5, 10⟩, .num 3)] ⟨2024, 5, 10⟩)).points ≤ 10
      ∧ total [(⟨2024, 5, 10⟩, .num 3)] ⟨2024, 5, 10⟩ = .num
          ((((scoreConsistency [(⟨2024, 5, 10⟩, .num 3)] ⟨2024, 5, 10⟩ 30).points + pa
            + (scoreGhostDays [(⟨2024, 5, 10⟩, .num 3)] ⟨2024, 5, 10⟩ 30).points + pv
            + (scoreStreak (computeStreak [(⟨2024, 5, 10⟩, .num 3)] ⟨2024, 5, 10⟩)).points
            : ℤ)) : ℚ)
      ∧ 0 ≤ (scoreConsistency [(⟨2024, 5, 10⟩, .num 3)] ⟨2024, 5, 10⟩ 30).points + pa
            + (scoreGhostDays [(⟨2024, 5, 10⟩, .num 3)] ⟨2024, 5, 10⟩ 30).points + pv
            + (scoreStreak (computeStreak [(⟨2024, 5, 10⟩, .num 3)] ⟨2024, 5, 10⟩)).points
      ∧ (scoreConsistency [(⟨2024, 5, 10⟩, .num 3)] ⟨2024, 5, 10⟩ 30).points + pa
            + (scoreGhostDays [(⟨2024, 5, 10⟩, .num 3)] ⟨2024, 5, 10⟩ 30).points + pv
            + (scoreStreak (computeStreak [(⟨2024, 5, 10⟩, .num 3)] ⟨2024, 5, 10⟩)).points
            ≤ 100 :=
  claim_C1_component_bounds [(⟨2024, 5, 10⟩, .num 3)] ⟨2024, 5, 10⟩ (by decide)

/-- C2: the autonomy scorer computes ratio `sub/main` when `main > 0`, else
`2` when `sub > 0`, else `0`, and points `min(25, round(ratio * 12.5))`; on a
window with `main = 48` and `sub = 71` it returns exactly 18 points, the
literal formula output. -/
theorem claim_C2_autonomy_formula :
    (∀ (byDate : Log) (today : YMD) (window : ℕ), WF byDate →
      (scoreAutonomy byDate today window).ratio
        = .num (autonomyRatio (mainSum byDate today window) (subSum byDate today window))
      ∧ (scoreAutonomy byDate today window).points
        = .num ((autonomyPoints (mainSum byDate today window)
            (subSum byDate today window) : ℤ) : ℚ))
    ∧ (scoreAutonomy [(⟨2025, 6, 15⟩, .obj (.num 48) (.num 71))] ⟨2025, 6, 15⟩ 30).points
        = .num 18
    ∧ mainSum [(⟨2025, 6, 15⟩, .obj (.num 48) (.num 71))] ⟨2025, 6, 15⟩ 30 = 48
    ∧ subSum [(⟨2025, 6, 15⟩, .obj (.num 48) (.num 71))] ⟨2025, 6, 15⟩ 30 = 71
    ∧ autonomyRatio 48 71 = 71 / 48
    ∧ autonomyPoints 48 71 = 18 := by
  have hwf : WF [(⟨2025, 6, 15⟩, .obj (.num 48) (.num 71))] := by decide
  have hmain : mainSum [(⟨2025, 6, 15⟩, .obj (.num 48) (.num 71))] ⟨2025, 6, 15⟩ 30
      = 48 := by
    unfold mainSum
    rw [specsum_single mainQ rfl _ _ (by norm_num)]
    rfl
  have hsub : subSum [(⟨2025, 6, 15⟩, .obj (.num 48) (.num 71))] ⟨2025, 6, 15⟩ 30
      = 71 := by
    unfold subSum
    rw [specsum_single subQ rfl _ _ (by norm_num)]
    rfl
  have hpts : autonomyPoints 48 71 = 18 := by
    unfold autonomyPoints autonomyRatio
    norm_num [round_eq]
  refine ⟨fun byDate today window hw =>
      ⟨by rw [scoreAutonomy_spec hw], by rw [scoreAutonomy_spec hw]⟩,
    ?_, hmain, hsub, by unfold autonomyRatio; norm_num, hpts⟩
  rw [scoreAutonomy_spec hwf, hmain, hsub, hpts]
  norm_num

theorem claim_C2_witness :
    (scoreAutonomy [(⟨2025, 6, 15⟩, .obj (.num 48) (.num 71))] ⟨2025, 6, 15⟩ 30).ratio
      = .num (autonomyRatio
          (mainSum [(⟨2025, 6, 15⟩, .obj (.num 48) (.num 71))] ⟨2025, 6, 15⟩ 30)
          (subSum [(⟨2025, 6, 15⟩, .obj (.num 48) (.num 71))] ⟨2025, 6, 15⟩ 30))
    ∧ (scoreAutonomy [(⟨2025, 6, 15⟩, .obj (.num 48) (.num 71))] ⟨2025, 6, 15⟩ 30).points
      = .num ((autonomyPoints
          (mainSum [(⟨2025, 6, 15⟩, .obj (.num 48) (.num 71))] ⟨2025, 6, 15⟩ 30)
          (subSum [(⟨2025, 6, 15⟩, .obj (.num 48) (.num 71))] ⟨2025, 6, 15⟩ 30) : ℤ) : ℚ) :=
  claim_C2_autonomy_formula.1 [(⟨2025, 6, 15⟩, .obj (.num 48) (.num 71))]
    ⟨2025, 6, 15⟩ 30 (by decide)

/-- C7: the five formulas are total: on the empty log every component scores
0 points, the total is 0 and the grade is F; the divisions are guarded, so a
well-formed log always yields a plain number for the autonomy ratio and the
volume points, and a zero active-day count forces a zero ghost percentage. -/
theorem claim_C7_total_functions :
    (∀ today : YMD,
      (scoreConsistency [] today 30).points = 0
      ∧ (scoreConsistency [] today 30).activeDays = 0
      ∧ (scoreAutonomy [] today 30).points = .num 0
      ∧ (scoreAutonomy [] today 30).ratio = .num 0
      ∧ (scoreGhostDays [] today 30).points = 0
      ∧ (scoreVolume [] today 30).points = .num 0
      ∧ computeStreak [] today = 0
      ∧ (scoreStreak (computeStreak [] today)).points = 0
      ∧ total [] today = .num 0
      ∧ (grade (total [] today)).grade = "F")
    ∧ (∀ (byDate : Log) (today : YMD) (window : ℕ), WF byDate →
        (∃ q : ℚ, 0 ≤ q ∧ (scoreAutonomy byDate today window).ratio = .num q)
        ∧ ((scoreGhostDays byDate today window).activeDays = 0 →
            (scoreGhostDays byDate today window).pct = 0)
        ∧ (∃ p : ℤ, (scoreVolume byDate today window).points = .num ((p : ℤ) : ℚ))) := by
  have hwfnil : WF ([] : Log) := fun e he => absurd he (List.not_mem_nil e)
  constructor
  · intro today
    have hmain : mainSum [] today 30 = 0 := sum_miss mainQ rfl _ (fun d _ => rfl)
    have hsub : subSum [] today 30 = 0 := sum_miss subQ rfl _ (fun d _ => rfl)
    have hhours : hoursSum [] today 30 = 0 := sum_miss hoursQ (by norm_num [hoursQ, mainQ, subQ]) _ (fun d _ => rfl)
    have hactive : activeCount [] today 30 = 0 := by
      rw [activeCount, List.countP_eq_zero]
      intro d _
      norm_num [lookupJS, hoursQ, mainQ, subQ]
    have hghost : ghostCount [] today 30 = 0 := by
      rw [ghostCount, List.countP_eq_zero]
      intro d _
      norm_num [lookupJS, subQ]
    have hstreak : computeStreak [] today = 0 := rfl
    have htotal : total [] today = .num 0 := by
      rw [total_spec hwfnil, hmain, hsub, hhours, hactive, hghost, hstreak]
      norm_num [consistencyPoints, autonomyPoints, autonomyRatio, ghostPoints,
        ghostPct, volumePoints, streakPoints]
    refine ⟨?_, ?_, ?_, ?_, ?_, ?_, hstreak, ?_, htotal, ?_⟩
    · rw [scoreConsistency_spec hwfnil, hactive]
      norm_num [consistencyPoints]
    · rw [scoreConsistency_spec hwfnil, hactive]
    · rw [scoreAutonomy_spec hwfnil, hmain, hsub]
      norm_num [autonomyPoints, autonomyRatio]
    · rw [scoreAutonomy_spec hwfnil, hmain, hsub]
      norm_num [autonomyRatio]
    · rw [scoreGhostDays_spec hwfnil, hghost, hactive]
      norm_num [ghostPoints, ghostPct]
    · rw [scoreVolume_spec hwfnil, hhours]
      norm_num [volumePoints]
    · rw [hstreak, scoreStreak_spec]
      norm_num [streakPoints]
    · rw [htotal]
      decide
  · intro byDate today window hw
    refine ⟨⟨autonomyRatio (mainSum byDate today window) (subSum byDate today window),
        autonomyRatio_nonneg (mainSum_nonneg hw today window)
          (subSum_nonneg hw today window),
        by rw [scoreAutonomy_spec hw]⟩, ?_,
      ⟨volumePoints (hoursSum byDate today window), by rw [scoreVolume_spec hw]⟩⟩
    rw [scoreGhostDays_spec hw]
    intro h0
    show ghostPct _ _ = 0
    rw [show activeCount byDate today window = 0 from h0]
    simp [ghostPct]

theorem claim_C7_witness :
    (∃ q : ℚ, 0 ≤ q ∧ (scoreAutonomy [(⟨2024, 5, 10⟩, .num 3)] ⟨2024, 5, 10⟩ 30).ratio
        = .num q)
    ∧ ((scoreGhostDays [(⟨2024, 5, 10⟩, .num 3)] ⟨2024, 5, 10⟩ 30).activeDays = 0 →
        (scoreGhostDays [(⟨2024, 5, 10⟩, .num 3)] ⟨2024, 5, 10⟩ 30).pct = 0)
    ∧ (∃ p : ℤ, (scoreVolume [(⟨2024, 5, 10⟩, .num 3)] ⟨2024, 5, 10⟩ 30).points
        = .num ((p : ℤ) : ℚ)) :=
  claim_C7_total_functions.2 [(⟨2024, 5, 10⟩, .num 3)] ⟨2024, 5, 10⟩ 30 (by decide)

/-- C3 counterexample: a structured record with zero fields at the anchor
date does NOT behave like an absent anchor record.  With
`{2024-05-10: {main:0, sub:0}, 2024-05-09: 5}` the anchor record is truthy,
so the walk starts at the anchor and stops at once with streak 0; removing
the anchor record makes the detector fall back to the previous day and
return 1. -/
theorem claim_C3_cex :
    computeStreak [(⟨2024, 5, 10⟩, .obj (.num 0) (.num 0)), (⟨2024, 5, 9⟩, .num 5)]
        ⟨2024, 5, 10⟩ = 0
    ∧ computeStreak [(⟨2024, 5, 9⟩, .num 5)] ⟨2024, 5, 10⟩ = 1
    ∧ lookupJS [(⟨2024, 5, 10⟩, .obj (.num 0) (.num 0)), (⟨2024, 5, 9⟩, .num 5)]
        ⟨2024, 5, 10⟩ = .obj (.num 0) (.num 0)
    ∧ hoursOf (.obj (.num 0) (.num 0)) = .num 0
    ∧ computeStreak [(⟨2024, 5, 10⟩, .obj (.num 0) (.num 0)), (⟨2024, 5, 9⟩, .num 5)]
        ⟨2024, 5, 10⟩
      ≠ computeStreak [(⟨2024, 5, 9⟩, .num 5)] ⟨2024, 5, 10⟩ := by
  have hl : lookupJS [(⟨2024, 5, 10⟩, .obj (.num 0) (.num 0)), (⟨2024, 5, 9⟩, .num 5)]
      ⟨2024, 5, 10⟩ = .obj (.num 0) (.num 0) := by decide
  have hhours : hoursOf (.obj (.num 0) (.num 0)) = .num 0 := by
    rw [hoursOf_ok (Or.inl (by decide))]
    norm_num [hoursQ, mainQ, subQ]
  have hz : jsStrictEq0
      (hoursOf (lookupJS [(⟨2024, 5, 10⟩, .obj (.num 0) (.num 0)),
        (⟨2024, 5, 9⟩, .num 5)] ⟨2024, 5, 10⟩)) = true := by
    rw [hl, hhours]
    decide
  have h1 : computeStreak [(⟨2024, 5, 10⟩, .obj (.num 0) (.num 0)),
      (⟨2024, 5, 9⟩, .num 5)] ⟨2024, 5, 10⟩ = 0 := by
    unfold computeStreak
    rw [hl]
    simp only [truthy, if_true]
    exact streakGo_zero_hours hz _
  have h2 : computeStreak [(⟨2024, 5, 9⟩, .num 5)] ⟨2024, 5, 10⟩ = 1 := by decide
  exact ⟨h1, h2, hl, hhours, by rw [h1, h2]; omega⟩

/-- C3 amended: a record whose hour sum is strictly equal to zero stops the
walk at that date with 0 exactly like a falsy or missing record; at the
anchor, a falsy record (the legacy scalar `0`, like an absent record)
triggers the previous-day fallback, but a truthy zero-hour record (a
structured record with zero fields) suppresses the fallback and makes the
whole streak 0. -/
theorem claim_C3_amended (byDate : Log) (today d : YMD) (fuel : ℕ) :
    (jsStrictEq0 (hoursOf (lookupJS byDate d)) = true → streakGo byDate d fuel = 0)
    ∧ (truthy (lookupJS byDate d) = false → streakGo byDate d fuel = 0)
    ∧ (lookupJS byDate today = .num 0 →
        computeStreak byDate today = streakGo byDate (addDays today (-1)) byDate.length)
    ∧ (lookupJS byDate today = .undefined →
        computeStreak byDate today = streakGo byDate (addDays today (-1)) byDate.length)
    ∧ (truthy (lookupJS byDate today) = true →
        jsStrictEq0 (hoursOf (lookupJS byDate today)) = true →
        computeStreak byDate today = 0) := by
  refine ⟨fun h => streakGo_zero_hours h fuel, fun h => streakGo_falsy h fuel,
    ?_, ?_, ?_⟩
  · intro h
    unfold computeStreak
    rw [h]
    rfl
  · intro h
    unfold computeStreak
    rw [h]
    rfl
  · intro ht hz
    unfold computeStreak
    rw [ht]
    simp only [if_true]
    exact streakGo_zero_hours hz _

theorem claim_C3_amended_witness :
    (jsStrictEq0 (hoursOf (lookupJS [(⟨2024, 5, 9⟩, .num 5)] ⟨2024, 5, 9⟩)) = true →
      streakGo [(⟨2024, 5, 9⟩, .num 5)] ⟨2024, 5, 9⟩ 3 = 0)
    ∧ (truthy (lookupJS [(⟨2024, 5, 9⟩, .num 5)] ⟨2024, 5, 9⟩) = false →
      streakGo [(⟨2024, 5, 9⟩, .num 5)] ⟨2024, 5, 9⟩ 3 = 0)
    ∧ (lookupJS [(⟨2024, 5, 9⟩, .num 5)] ⟨2024, 5, 10⟩ = .num 0 →
        computeStreak [(⟨2024, 5, 9⟩, .num 5)] ⟨2024, 5, 10⟩
          = streakGo [(⟨2024, 5, 9⟩, .num 5)] (addDays ⟨2024, 5, 10⟩ (-1))
              ([(⟨2024, 5, 9⟩, .num 5)] : Log).length)
    ∧ (lookupJS [(⟨2024, 5, 9⟩, .num 5)] ⟨2024, 5, 10⟩ = .undefined →
        computeStreak [(⟨2024, 5, 9⟩, .num 5)] ⟨2024, 5, 10⟩
          = streakGo [(⟨2024, 5, 9⟩, .num 5)] (addDays ⟨2024, 5, 10⟩ (-1))
              ([(⟨2024, 5, 9⟩, .num 5)] : Log).length)
    ∧ (truthy (lookupJS [(⟨2024, 5, 9⟩, .num 5)] ⟨2024, 5, 10⟩) = true →
        jsStrictEq0 (hoursOf (lookupJS [(⟨2024, 5, 9⟩, .num 5)] ⟨2024, 5, 10⟩)) = true →
        computeStreak [(⟨2024, 5, 9⟩, .num 5)] ⟨2024, 5, 10⟩ = 0) :=
  claim_C3_amended [(⟨2024, 5, 9⟩, .num 5)] ⟨2024, 5, 10⟩ ⟨2024, 5, 9⟩ 3

/-! ## Replacing one day's record by the number zero -/

/-- The log with the record at date `d` replaced by the number `0` — the
"treat the bad day as zero" reading of the malformed-record claim. -/
def zeroOutAt (byDate : Log) (d : YMD) : Log :=
  byDate.map (fun e => if e.1 = d then (e.1, .num 0) else e)

theorem zeroOutAt_cons_self (k : YMD) (v : JVal) (rest : List (YMD × JVal)) :
    zeroOutAt ((k, v) :: rest) k = (k, JVal.num 0) :: zeroOutAt rest k := by
  simp [zeroOutAt]

theorem zeroOutAt_cons_ne {k d : YMD} (hk : k ≠ d) (v : JVal)
    (rest : List (YMD × JVal)) :
    zeroOutAt ((k, v) :: rest) d = (k, v) :: zeroOutAt rest d := by
  simp [zeroOutAt, hk]

theorem lookup_zeroOutAt_ne {byDate : Log} {d d' : YMD} (h : d' ≠ d) :
    lookupJS (zeroOutAt byDate d) d' = lookupJS byDate d' := by
  induction byDate with
  | nil => rfl
  | cons e rest ih =>
      obtain ⟨k, v⟩ := e
      by_cases hk : k = d
      · subst hk
        have hne : ¬ k = d' := fun e => h e.symm
        rw [zeroOutAt_cons_self]
        simp only [lookupJS]
        rw [if_neg hne, if_neg hne]
        exact ih
      · rw [zeroOutAt_cons_ne hk]
        simp only [lookupJS]
        by_cases hk' : k = d'
        · rw [if_pos hk', if_pos hk']
        · rw [if_neg hk', if_neg hk']
          exact ih

theorem lookup_zeroOutAt_self {byDate : Log} {d : YMD} {a b : JVal}
    (h : lookupJS byDate d = .obj a b) :
    lookupJS (zeroOutAt byDate d) d = .num 0 := by
  induction byDate with
  | nil => simp [lookupJS] at h
  | cons e rest ih =>
      obtain ⟨k, v⟩ := e
      by_cases hk : k = d
      · subst hk
        rw [zeroOutAt_cons_self]
        simp [lookupJS]
      · simp only [lookupJS] at h
        rw [if_neg hk] at h
        rw [zeroOutAt_cons_ne hk]
        simp only [lookupJS]
        rw [if_neg hk]
        exact ih h

theorem WF_zeroOutAt {byDate : Log} (h : WF byDate) (d : YMD) :
    WF (zeroOutAt byDate d) := by
  intro e he
  obtain ⟨e0, he0, rfl⟩ := List.mem_map.mp he
  by_cases hk : e0.1 = d
  · rw [if_pos hk]
    exact (by decide : recordOk (JVal.num 0) = true)
  · rw [if_neg hk]
    exact h e0 he0

/-- C8 counterexample: a malformed record that is a non-empty string is NOT
treated as zero.  With `{2024-05-10: "a", 2024-05-09: 5}` the string is
concatenated into the sub-hours accumulator (`0 + "a" + 5` gives `"0a5"`),
the `sub > 0` guard then fails on the non-numeric string and the autonomy
score is 0; replacing the malformed record by zero gives ratio 2 and 25
points, so the bad day changed another day's contribution. -/
theorem claim_C8_cex :
    (scoreAutonomy [(⟨2024, 5, 10⟩, .str "a"), (⟨2024, 5, 9⟩, .num 5)]
        ⟨2024, 5, 10⟩ 30).points = .num 0
    ∧ (scoreAutonomy
        (zeroOutAt [(⟨2024, 5, 10⟩, .str "a"), (⟨2024, 5, 9⟩, .num 5)] ⟨2024, 5, 10⟩)
        ⟨2024, 5, 10⟩ 30).points = .num 25
    ∧ zeroOutAt [(⟨2024, 5, 10⟩, .str "a"), (⟨2024, 5, 9⟩, .num 5)] ⟨2024, 5, 10⟩
        = [(⟨2024, 5, 10⟩, .num 0), (⟨2024, 5, 9⟩, .num 5)]
    ∧ (scoreAutonomy [(⟨2024, 5, 10⟩, .str "a"), (⟨2024, 5, 9⟩, .num 5)]
        ⟨2024, 5, 10⟩ 30).subHours = .str "0a5"
    ∧ recordOk (.str "a") = false := by
  have hprev : (⟨2024, 5, 9⟩ : YMD) = prevDay ⟨2024, 5, 10⟩ := by decide
  have hmain : sumWith mainContrib
      [(⟨2024, 5, 10⟩, .str "a"), (prevDay ⟨2024, 5, 10⟩, .num 5)] ⟨2024, 5, 10⟩ 30
      = .num 0 := by
    rw [sumWith_pair mainContrib _ _ _ (by norm_num)]
    norm_num [truthy, mainContrib, typeofIsObject]
  have hsub : sumWith subContrib
      [(⟨2024, 5, 10⟩, .str "a"), (prevDay ⟨2024, 5, 10⟩, .num 5)] ⟨2024, 5, 10⟩ 30
      = .str "0a5" := by
    rw [sumWith_pair subContrib _ _ _ (by norm_num)]
    decide
  have hfirst : (scoreAutonomy [(⟨2024, 5, 10⟩, .str "a"), (⟨2024, 5, 9⟩, .num 5)]
      ⟨2024, 5, 10⟩ 30).points = .num 0 := by
    rw [hprev]
    simp only [scoreAutonomy, hmain, hsub]
    have hg1 : jsGtZero (JVal.num 0) = false := by decide
    have hg2 : jsGtZero (JVal.str "0a5") = false := by decide
    simp only [hg1, hg2, Bool.false_eq_true, if_false, jsMul_num_num, jsRound_num,
      jsMin_num_num]
    norm_num
  have hsubfield : (scoreAutonomy [(⟨2024, 5, 10⟩, .str "a"), (⟨2024, 5, 9⟩, .num 5)]
      ⟨2024, 5, 10⟩ 30).subHours = .str "0a5" := by
    rw [hprev]
    simp only [scoreAutonomy, hmain, hsub]
  have hzero : zeroOutAt [(⟨2024, 5, 10⟩, .str "a"), (⟨2024, 5, 9⟩, .num 5)]
      ⟨2024, 5, 10⟩ = [(⟨2024, 5, 10⟩, .num 0), (⟨2024, 5, 9⟩, .num 5)] := by decide
  have hwf2 : WF [(⟨2024, 5, 10⟩, .num 0), (⟨2024, 5, 9⟩, .num 5)] := by decide
  have hmain2 : mainSum [(⟨2024, 5, 10⟩, .num 0), (prevDay ⟨2024, 5, 10⟩, .num 5)]
      ⟨2024, 5, 10⟩ 30 = 0 := by
    unfold mainSum
    rw [specsum_pair mainQ rfl _ _ _ (by norm_num)]
    norm_num [mainQ]
  have hsub2 : subSum [(⟨2024, 5, 10⟩, .num 0), (prevDay ⟨2024, 5, 10⟩, .num 5)]
      ⟨2024, 5, 10⟩ 30 = 5 := by
    unfold subSum
    rw [specsum_pair subQ rfl _ _ _ (by norm_num)]
    norm_num [subQ]
  have hsecond : (scoreAutonomy [(⟨2024, 5, 10⟩, .num 0), (⟨2024, 5, 9⟩, .num 5)]
      ⟨2024, 5, 10⟩ 30).points = .num 25 := by
    rw [hprev] at hwf2 ⊢
    rw [scoreAutonomy_spec hwf2, hmain2, hsub2]
    norm_num [autonomyPoints, autonomyRatio]
  refine ⟨hfirst, ?_, hzero, hsubfield, by decide⟩
  rw [hzero]
  exact hsecond

/-- The walk of `computeStreak` cannot tell a day whose record is an object
with missing fields from one whose record was replaced by the number zero:
both stop it with 0. -/
theorem streakGo_zeroOut_congr {byDate : Log} {d : YMD}
    (hd : lookupJS byDate d = .obj .undefined .undefined) :
    ∀ (fuel : ℕ) (dd : YMD),
      streakGo byDate dd fuel = streakGo (zeroOutAt byDate d) dd fuel := by
  have hz : jsStrictEq0 (hoursOf (JVal.obj .undefined .undefined)) = true := by
    rw [hoursOf_ok (Or.inl (by decide))]
    simp only [jsStrictEq0, hoursQ, mainQ, subQ]
    norm_num
  intro fuel
  induction fuel with
  | zero => intro dd; rfl
  | succ n ih =>
      intro dd
      by_cases hdd : dd = d
      · subst hdd
        rw [streakGo_zero_hours (by rw [hd]; exact hz) _,
          streakGo_falsy (by rw [lookup_zeroOutAt_self hd]; rfl) _]
      · simp only [streakGo, lookup_zeroOutAt_ne hdd, ih (addDays dd (-1))]

/-- C8 amended: a malformed record that is an object with missing numeric
fields is treated as zero: replacing it by the number `0` changes neither any
window scorer nor, away from the anchor date, the streak; scoring always
completes (every scorer is a total function).  A truthy non-object record
such as a non-empty string is NOT treated as zero (see the counterexample):
it is concatenated into the hour accumulator and can change the points,
though the run still completes. -/
theorem claim_C8_amended (byDate : Log) (today d : YMD) (w : ℕ)
    (hwf : WF byDate) (hd : lookupJS byDate d = .obj .undefined .undefined) :
    scoreConsistency byDate today w = scoreConsistency (zeroOutAt byDate d) today w
    ∧ scoreAutonomy byDate today w = scoreAutonomy (zeroOutAt byDate d) today w
    ∧ scoreGhostDays byDate today w = scoreGhostDays (zeroOutAt byDate d) today w
    ∧ scoreVolume byDate today w = scoreVolume (zeroOutAt byDate d) today w
    ∧ (d ≠ today → computeStreak byDate today = computeStreak (zeroOutAt byDate d) today) := by
  have hwf2 := WF_zeroOutAt hwf d
  have hmainQ : ∀ d', mainQ (lookupJS (zeroOutAt byDate d) d')
      = mainQ (lookupJS byDate d') := by
    intro d'
    by_cases hd' : d' = d
    · subst hd'
      rw [lookup_zeroOutAt_self hd, hd]
      simp [mainQ]
    · rw [lookup_zeroOutAt_ne hd']
  have hsubQ : ∀ d', subQ (lookupJS (zeroOutAt byDate d) d')
      = subQ (lookupJS byDate d') := by
    intro d'
    by_cases hd' : d' = d
    · subst hd'
      rw [lookup_zeroOutAt_self hd, hd]
      simp [subQ]
    · rw [lookup_zeroOutAt_ne hd']
  have hhoursQ : ∀ d', hoursQ (lookupJS (zeroOutAt byDate d) d')
      = hoursQ (lookupJS byDate d') := by
    intro d'
    rw [hoursQ, hoursQ, hmainQ, hsubQ]
  have hactive : activeCount (zeroOutAt byDate d) today w = activeCount byDate today w :=
    List.countP_congr (fun x _ => by rw [hhoursQ x])
  have hghost : ghostCount (zeroOutAt byDate d) today w = ghostCount byDate today w :=
    List.countP_congr (fun x _ => by rw [hmainQ x, hsubQ x])
  have hmainS : mainSum (zeroOutAt byDate d) today w = mainSum byDate today w :=
    congrArg List.sum (List.map_congr_left (fun x _ => by rw [hmainQ x]))
  have hsubS : subSum (zeroOutAt byDate d) today w = subSum byDate today w :=
    congrArg List.sum (List.map_congr_left (fun x _ => by rw [hsubQ x]))
  have hhoursS : hoursSum (zeroOutAt byDate d) today w = hoursSum byDate today w :=
    congrArg List.sum (List.map_congr_left (fun x _ => by rw [hhoursQ x]))
  refine ⟨?_, ?_, ?_, ?_, ?_⟩
  · rw [scoreConsistency_spec hwf, scoreConsistency_spec hwf2, hactive]
  · rw [scoreAutonomy_spec hwf, scoreAutonomy_spec hwf2, hmainS, hsubS]
  · rw [scoreGhostDays_spec hwf, scoreGhostDays_spec hwf2, hactive, hghost]
  · rw [scoreVolume_spec hwf, scoreVolume_spec hwf2, hhoursS]
  · intro hne
    unfold computeStreak
    rw [lookup_zeroOutAt_ne (fun e => hne e.symm),
      show (zeroOutAt byDate d).length = byDate.length from List.length_map _ _,
      ← streakGo_zeroOut_congr hd byDate.length]

theorem claim_C8_amended_witness :
    scoreConsistency [(⟨2024, 5, 9⟩, .obj .undefined .undefined)] ⟨2024, 5, 10⟩ 30
      = scoreConsistency (zeroOutAt [(⟨2024, 5, 9⟩, .obj .undefined .undefined)] ⟨2024, 5, 9⟩)
          ⟨2024, 5, 10⟩ 30
    ∧ scoreAutonomy [(⟨2024, 5, 9⟩, .obj .undefined .undefined)] ⟨2024, 5, 10⟩ 30
      = scoreAutonomy (zeroOutAt [(⟨2024, 5, 9⟩, .obj .undefined .undefined)] ⟨2024, 5, 9⟩)
          ⟨2024, 5, 10⟩ 30
    ∧ scoreGhostDays [(⟨2024, 5, 9⟩, .obj .undefined .undefined)] ⟨2024, 5, 10⟩ 30
      = scoreGhostDays (zeroOutAt [(⟨2024, 5, 9⟩, .obj .undefined .undefined)] ⟨2024, 5, 9⟩)
          ⟨2024, 5, 10⟩ 30
    ∧ scoreVolume [(⟨2024, 5, 9⟩, .obj .undefined .undefined)] ⟨2024, 5, 10⟩ 30
      = scoreVolume (zeroOutAt [(⟨2024, 5, 9⟩, .obj .undefined .undefined)] ⟨2024, 5, 9⟩)
          ⟨2024, 5, 10⟩ 30
    ∧ ((⟨2024, 5, 9⟩ : YMD) ≠ ⟨2024, 5, 10⟩ →
        computeStreak [(⟨2024, 5, 9⟩, .obj .undefined .undefined)] ⟨2024, 5, 10⟩
          = computeStreak (zeroOutAt [(⟨2024, 5, 9⟩, .obj .undefined .undefined)] ⟨2024, 5, 9⟩)
              ⟨2024, 5, 10⟩) :=
  claim_C8_amended [(⟨2024, 5, 9⟩, .obj .undefined .undefined)] ⟨2024, 5, 10⟩ ⟨2024, 5, 9⟩ 30
    (by decide) (by decide)

end CCScore
